import Mathlib

/-!
Verification of `new_api1.py` (the "analyze assessment" pipeline).

Strings are modelled as `List Char`.  The parts of the Python standard
library the handler leans on are embedded explicitly:

* `json.loads` is modelled by `jsonParse` below, a recursive-descent
  parser over `List Char` with a fuel argument (numbers are modelled as
  integers: the API contract and all prompts require integer scores, and
  the code never produces or consumes fractional values; `\uXXXX` escapes
  are kept only for valid scalar values).
* the two `re.sub` repairs and the fenced-block `re.search` of
  `call_ai_model` are modelled by `subTrail` and `fenceSearch`.
* `dict` values are association lists whose insertion keeps the first
  position of an existing key and replaces its value (CPython semantics);
  lookups take the first (hence only) occurrence of a key.
-/

/-- Whitespace test matching both Python's `str` whitespace relevant to
`\s` in the repair regexes and `json.loads` whitespace skipping. -/
def isWsChar (c : Char) : Bool :=
  c = ' ' || c = '\t' || c = '\n' || c = '\r' || c = '\x0b' || c = '\x0c'

/-- ASCII digit test. -/
def isDigitChar (c : Char) : Bool := '0' ≤ c && c ≤ '9'

/-- Drop leading whitespace (models both the `\s*` runs in the regexes and
the whitespace skipping of `json.loads`). -/
def skipWs : List Char → List Char
  | [] => []
  | c :: r => if isWsChar c then skipWs r else c :: r

/-- Strip whitespace from both ends of a character list (the effect the
`\s*` groups in ```` ```json\s*([\s\S]*?)\s*``` ```` have on the captured
group). -/
def trimWs (s : List Char) : List Char :=
  ((skipWs s).reverse.dropWhile isWsChar).reverse

/-- First index at which `pat` occurs as a contiguous sublist of `s`
(the leftmost-match rule of `re.search`). -/
def findSub (pat : List Char) : List Char → Option Nat
  | [] => if pat.isEmpty then some 0 else none
  | c :: r =>
    if pat.isPrefixOf (c :: r) then some 0
    else (findSub pat r).map (· + 1)

/-- A JSON value as produced by `json.loads`: numbers are modelled as
integers (see the module comment). -/
inductive Json where
  | null
  | bool (b : Bool)
  | num (n : Int)
  | str (s : List Char)
  | arr (elems : List Json)
  | obj (members : List (List Char × Json))
deriving Repr

mutual

/-- Structural (Lean-level) equality test for `Json`. -/
def jsonBeq : Json → Json → Bool
  | .null, .null => true
  | .bool a, .bool b => a = b
  | .num a, .num b => a = b
  | .str a, .str b => a = b
  | .arr a, .arr b => jsonListBeq a b
  | .obj a, .obj b => jsonObjBeq a b
  | _, _ => false

/-- Elementwise `jsonBeq` on lists. -/
def jsonListBeq : List Json → List Json → Bool
  | [], [] => true
  | x :: xs, y :: ys => jsonBeq x y && jsonListBeq xs ys
  | _, _ => false

/-- Pairwise `jsonBeq` on members. -/
def jsonObjBeq : List (List Char × Json) → List (List Char × Json) → Bool
  | [], [] => true
  | (k, v) :: xs, (k2, v2) :: ys => k = k2 && jsonBeq v v2 && jsonObjBeq xs ys
  | _, _ => false

end

mutual

theorem jsonBeq_iff : ∀ a b : Json, jsonBeq a b = true ↔ a = b
  | .null, b => by cases b <;> simp [jsonBeq]
  | .bool a, b => by cases b <;> simp [jsonBeq]
  | .num a, b => by cases b <;> simp [jsonBeq]
  | .str a, b => by cases b <;> simp [jsonBeq]
  | .arr a, b => by cases b <;> simp [jsonBeq, jsonListBeq_iff a]
  | .obj a, b => by cases b <;> simp [jsonBeq, jsonObjBeq_iff a]

theorem jsonListBeq_iff : ∀ a b : List Json, jsonListBeq a b = true ↔ a = b
  | [], b => by cases b <;> simp [jsonListBeq]
  | x :: xs, b => by
    cases b <;> simp [jsonListBeq, jsonBeq_iff x, jsonListBeq_iff xs]

theorem jsonObjBeq_iff :
    ∀ a b : List (List Char × Json), jsonObjBeq a b = true ↔ a = b
  | [], b => by cases b <;> simp [jsonObjBeq]
  | (k, v) :: xs, b => by
    rcases b with _ | ⟨⟨k2, v2⟩, ys⟩ <;>
      simp [jsonObjBeq, jsonBeq_iff v, jsonObjBeq_iff xs, and_assoc]

end

instance : DecidableEq Json := fun a b => decidable_of_iff _ (jsonBeq_iff a b)

/-- CPython `dict` assignment `d[k] = v`: replace the value in place when
the key exists, append the pair otherwise. -/
def objInsert : List (List Char × Json) → List Char → Json → List (List Char × Json)
  | [], k, v => [(k, v)]
  | (k0, v0) :: rest, k, v =>
    if k0 = k then (k, v) :: rest else (k0, v0) :: objInsert rest k v

/-- CPython `dict` lookup `d.get(k)`: the first (only) occurrence wins. -/
def assocGet {α : Type} : List (List Char × α) → List Char → Option α
  | [], _ => none
  | (k0, v0) :: rest, k => if k0 = k then some v0 else assocGet rest k

/-- CPython `dict` assignment for an existing key, used where the code
only ever writes keys that are present (the fixed score dictionaries). -/
def assocSet {α : Type} : List (List Char × α) → List Char → α → List (List Char × α)
  | [], _, _ => []
  | (k0, v0) :: rest, k, v =>
    if k0 = k then (k, v) :: rest else (k0, v0) :: assocSet rest k v

/-- Value of a single JSON escape character (`json.loads` string escapes
other than `\uXXXX`). -/
def escChar : Char → Option Char
  | '"' => some '"'
  | '\\' => some '\\'
  | '/' => some '/'
  | 'b' => some '\x08'
  | 'f' => some '\x0c'
  | 'n' => some '\n'
  | 'r' => some '\r'
  | 't' => some '\t'
  | _ => none

/-- Value of a hex digit of a `\uXXXX` escape, by code point: `0`–`9` are
48–57, `A`–`F` are 65–70 and `a`–`f` are 97–102. -/
def hexVal (c : Char) : Option Nat :=
  let n := c.toNat
  if 48 ≤ n && n ≤ 57 then some (n - 48)
  else if 65 ≤ n && n ≤ 70 then some (n - 55)
  else if 97 ≤ n && n ≤ 102 then some (n - 87)
  else none

/-- Scan the body of a JSON string after the opening quote, producing the
decoded characters and the input after the closing quote.  Mirrors
`json.loads` strictness: raw control characters and invalid escapes are
rejected. -/
def scanStr : List Char → Option (List Char × List Char)
  | [] => none
  | '"' :: r => some ([], r)
  | '\\' :: 'u' :: a :: b :: c :: d :: r =>
    match hexVal a, hexVal b, hexVal c, hexVal d with
    | some va, some vb, some vc, some vd =>
      let n := ((va * 16 + vb) * 16 + vc) * 16 + vd
      if n.isValidChar then
        (scanStr r).map (fun p => (Char.ofNat n :: p.1, p.2))
      else none
    | _, _, _, _ => none
  | '\\' :: e :: r =>
    match escChar e with
    | some ec => (scanStr r).map (fun p => (ec :: p.1, p.2))
    | none => none
  | c :: r =>
    if c.toNat < 32 then none
    else (scanStr r).map (fun p => (c :: p.1, p.2))

/-- Digits to a natural number. -/
def digitsToNat (ds : List Char) : Nat :=
  ds.foldl (fun a c => a * 10 + (c.toNat - '0'.toNat)) 0

/-- Scan an unsigned JSON integer (Python rejects leading zeros). -/
def scanNum (s : List Char) : Option (Int × List Char) :=
  let ds := s.takeWhile isDigitChar
  let r := s.dropWhile isDigitChar
  if ds.isEmpty then none
  else if 1 < ds.length ∧ ds.headD '0' = '0' then none
  else some ((digitsToNat ds : Int), r)

mutual

/-- One JSON value, leading whitespace allowed; models `json.loads`'s
recursive descent.  Structural on `fuel`; `jsonParse` supplies enough. -/
def pVal : Nat → List Char → Option (Json × List Char)
  | 0, _ => none
  | fuel + 1, s =>
    match skipWs s with
    | 'n' :: 'u' :: 'l' :: 'l' :: r => some (.null, r)
    | 't' :: 'r' :: 'u' :: 'e' :: r => some (.bool true, r)
    | 'f' :: 'a' :: 'l' :: 's' :: 'e' :: r => some (.bool false, r)
    | '"' :: r => (scanStr r).map (fun p => (.str p.1, p.2))
    | '{' :: r =>
      (match skipWs r with
      | '}' :: r2 => some (.obj [], r2)
      | _ => pMembers fuel [] r)
    | '[' :: r =>
      (match skipWs r with
      | ']' :: r2 => some (.arr [], r2)
      | _ => pElems fuel [] r)
    | c :: r =>
      if c = '-' then
        match scanNum r with
        | some (n, r2) => some (.num (-n), r2)
        | none => none
      else if isDigitChar c then
        match scanNum (c :: r) with
        | some (n, r2) => some (.num n, r2)
        | none => none
      else none
    | [] => none

/-- One-or-more comma-separated array elements (the empty array is handled
in `pVal`). -/
def pElems : Nat → List Json → List Char → Option (Json × List Char)
  | 0, _, _ => none
  | fuel + 1, acc, s =>
    match pVal fuel s with
    | none => none
    | some (v, r) =>
      match skipWs r with
      | ']' :: r2 => some (.arr (acc ++ [v]), r2)
      | ',' :: r2 => pElems fuel (acc ++ [v]) r2
      | _ => none

/-- One-or-more comma-separated object members (the empty object is
handled in `pVal`); duplicate keys behave like CPython dicts. -/
def pMembers : Nat → List (List Char × Json) → List Char → Option (Json × List Char)
  | 0, _, _ => none
  | fuel + 1, acc, s =>
    match skipWs s with
    | '"' :: r =>
      (match scanStr r with
      | none => none
      | some (k, r1) =>
        match skipWs r1 with
        | ':' :: r2 =>
          (match pVal fuel r2 with
          | none => none
          | some (v, r3) =>
            match skipWs r3 with
            | '}' :: r4 => some (.obj (objInsert acc k v), r4)
            | ',' :: r4 => pMembers fuel (objInsert acc k v) r4
            | _ => none)
        | _ => none)
    | _ => none

end

/-- `json.loads`: parse a complete document; anything but trailing
whitespace after the value is an error. -/
def jsonParse (s : List Char) : Option Json :=
  match pVal (2 * s.length + 2) s with
  | some (v, r) => if skipWs r = [] then some v else none
  | none => none

/-- Whether `pat` occurs as a contiguous sublist of `s`. -/
def containsSub (pat : List Char) : List Char → Bool
  | [] => pat.isEmpty
  | c :: r => pat.isPrefixOf (c :: r) || containsSub pat r

theorem length_dropWhile_le_len (p : Char → Bool) (l : List Char) :
    (l.dropWhile p).length ≤ l.length := by
  induction l with
  | nil => simp [List.dropWhile]
  | cons c r ih => simp only [List.dropWhile]; split <;> simp; omega

/-- Model of `re.sub(r',\s*CLOSE', 'CLOSE', s)` for a closing character
(line 86 with `}` and line 87 with `]` of `new_api1.py`): scanning left to
right, a comma followed by whitespace and then `close` collapses to
`close`, and scanning resumes after the match.  Implemented as one scan
holding the pending `,`+whitespace run in `buf` (reversed): `buf` is
non-empty exactly while a match attempt is open; no position inside the
buffered run can start another match (the pattern begins with `,`), so
flushing the buffer on a mismatch is precisely `re.sub`'s resumption at
the next candidate position. -/
def subTrailGo (close : Char) (buf : List Char) : List Char → List Char
  | [] => buf.reverse
  | c :: rest =>
    if buf.isEmpty then
      if c = ',' then subTrailGo close [c] rest
      else c :: subTrailGo close [] rest
    else
      if c = close then close :: subTrailGo close [] rest
      else if isWsChar c then subTrailGo close (c :: buf) rest
      else if c = ',' then buf.reverse ++ subTrailGo close [c] rest
      else buf.reverse ++ (c :: subTrailGo close [] rest)

/-- The substitution itself, starting with no pending match. -/
def subTrail (close : Char) (s : List Char) : List Char :=
  subTrailGo close [] s

/-- Both trailing-comma repairs of `call_ai_model` (lines 86–87), in
source order: first before `}`, then before `]`. -/
def repairJson (s : List Char) : List Char :=
  subTrail ']' (subTrail '}' s)

/-- Model of `re.search(r"```json\s*([\s\S]*?)\s*```", content)` returning
the captured group (line 79).  With Python's backtracking rules the match
starts at the first occurrence of ```` ```json ````, and the lazily
captured group is the text between the end of that opener and the first
following ```` ``` ````, with surrounding whitespace stripped by the two
greedy `\s*` runs (no earlier opener can complete when this one cannot,
because any later ```` ```json ```` contains a closing ```` ``` ````). -/
def fenceSearch (s : List Char) : Option (List Char) :=
  match findSub ("```json".toList) s with
  | none => none
  | some i =>
    let rest := s.drop (i + 7)
    match findSub ("```".toList) rest with
    | none => none
    | some q => some (trimWs (rest.take q))

/-- Lines 79–90 of `call_ai_model`: pick the fenced block's interior when
a fence is found (otherwise the whole content), repair trailing commas,
and parse; a parse error propagates as an extraction failure (`none`). -/
def extractJson (content : List Char) : Option Json :=
  jsonParse (repairJson ((fenceSearch content).getD content))

mutual

/-- Python `==` between JSON values: like structural equality but `True`
and `False` also compare equal to the numbers 1 and 0, and dicts compare
order-insensitively (equal sizes and, member by member of the left dict,
an equal value under the same key in the right one — CPython's dict
`__eq__` over the unique-keyed dicts the program handles). -/
def jsonEqPy : Json → Json → Bool
  | .null, .null => true
  | .bool a, .bool b => a = b
  | .num a, .num b => a = b
  | .bool a, .num b => (if a then (1 : Int) else 0) = b
  | .num a, .bool b => a = (if b then (1 : Int) else 0)
  | .str a, .str b => a = b
  | .arr a, .arr b => jsonListEqPy a b
  | .obj a, .obj b => a.length = b.length && jsonObjEqPy a b
  | _, _ => false

/-- Elementwise Python `==` on lists. -/
def jsonListEqPy : List Json → List Json → Bool
  | [], [] => true
  | x :: xs, y :: ys => jsonEqPy x y && jsonListEqPy xs ys
  | _, _ => false

/-- Every member of the left dict has a Python-`==` value under the same
key in the right dict. -/
def jsonObjEqPy : List (List Char × Json) → List (List Char × Json) → Bool
  | [], _ => true
  | (k, v) :: xs, ys =>
    (match assocGet ys k with
     | some w => jsonEqPy v w
     | none => false) && jsonObjEqPy xs ys

end

/-- Python's `key in value` for a text key: key membership for dicts,
element equality for lists, substring test for strings; `in` on any other
value raises `TypeError` (`none`). -/
def inJson (key : List Char) : Json → Option Bool
  | .obj kvs => some (kvs.any (fun p => p.1 = key))
  | .arr l => some (l.any (fun e => jsonEqPy (.str key) e))
  | .str s => some (containsSub key s)
  | _ => none

/-- The loop of lines 95–97: each member with a `score` field contributes
to `dimension_scores`; a member on which `"score" in detail` raises, or
whose subscripting raises, fails the call. -/
def collectDimScores : List (List Char × Json) → Option (List (List Char × Json))
  | [] => some []
  | (k, det) :: rest =>
    match inJson ("score".toList) det with
    | none => none
    | some false => (collectDimScores rest).map (fun ds => ds)
    | some true =>
      match det with
      | .obj dkvs =>
        match assocGet dkvs ("score".toList) with
        | some sv => (collectDimScores rest).map (fun ds => objInsert ds k sv)
        | none => some []
      | _ => none

/-- Lines 92–99 of `call_ai_model`: when the parsed value has a
`dimensions` member, synthesise `dimension_scores` from the members'
`score` fields.  Any `TypeError`/`AttributeError` the Python code would
raise here (membership test on a non-container, `.items()` on a
non-dict, subscripting a non-dict member) propagates as a failure of the
whole call (`none`). -/
def postDims (v : Json) : Option Json :=
  match inJson ("dimensions".toList) v with
  | none => none
  | some false => some v
  | some true =>
    match v with
    | .obj kvs =>
      match assocGet kvs ("dimensions".toList) with
      | some (.obj dims) =>
        match collectDimScores dims with
        | some ds => some (.obj (objInsert kvs ("dimension_scores".toList) (.obj ds)))
        | none => none
      | _ => none
    | _ => none

/-- `call_ai_model` as seen by its callers, with the transport modelled by
an oracle outcome: `none` models a raised transport/timeout error or a
response without choices; `some content` is the completion text, which is
then extracted (lines 79–90) and post-processed (lines 92–99). -/
def callAiModel (outcome : Option (List Char)) : Option Json :=
  (outcome.bind extractJson).bind postDims

/-- An inbound option object, with the optional fields the handler reads
(lines 129–134).  `key`, `content` and `score` are arbitrary JSON values
as far as the handler is concerned. -/
structure InOption where
  key : Option Json
  content : Option Json
  score : Option Json

/-- An inbound question object, with the fields the handler reads
(lines 122–143).  `id`, `stem`, `type` and `standard` are modelled at the
text the handler derives from them (ids pass through `str(...)` before
any use); `dimension` is kept as a raw JSON value because the code
branches on its runtime type. -/
structure InQuestion where
  qid : Option (List Char)
  stem : Option (List Char)
  qtype : Option (List Char)
  options : Option (List InOption)
  dimension : Option Json
  standard : Option (List Char)

/-- The inbound request body after FastAPI/pydantic validation
(`ExternalDataRequest`, lines 37–40). -/
structure Request where
  user_info : List (List Char × Json)
  questions : List InQuestion
  answers : List (List Char × Json)

/-- A formatted option (lines 130–134): defaults are the 1-based position
as text for `key`, the empty string for `content`, and 0 for `score`. -/
structure FOption where
  key : Json
  content : Json
  score : Json
deriving Repr, DecidableEq

/-- A formatted question (lines 136–143). -/
structure FQuestion where
  qid : List Char
  stem : List Char
  qtype : List Char
  options : List FOption
  dimension : Json
  standard : List Char

/-- The resolved user choice recorded on an objective QA pair
(lines 183–187): note the recorded `key` is the submitted answer itself. -/
structure UserChoice where
  key : Json
  content : Json
  score : Json
deriving Repr, DecidableEq

/-- A QA pair (lines 155–170): `options` is only populated for objective
pairs, and `user_choice` is attached by the loop at lines 177–188. -/
structure QAPair where
  question : List Char
  dimension : Json
  answer : Json
  qtype : List Char
  standard : List Char
  options : List FOption
  user_choice : Option UserChoice

/-- Lines 127–134: options are formatted only for `single_choice`
questions that carry an `options` field. -/
def formatOptions (t : List Char) (opts : Option (List InOption)) : List FOption :=
  match opts with
  | none => []
  | some l =>
    if t = "single_choice".toList then
      (l.enum.map fun p =>
        { key := p.2.key.getD (.str (Nat.toDigits 10 (p.1 + 1)))
          content := p.2.content.getD (.str [])
          score := p.2.score.getD (.num 0) })
    else []

/-- Lines 122–143: the formatted question derived from an inbound one at
0-based position `i`. -/
def formatQuestion (i : Nat) (q : InQuestion) : FQuestion :=
  let t := q.qtype.getD ("single_choice".toList)
  { qid := q.qid.getD (Nat.toDigits 10 (i + 1))
    stem := q.stem.getD []
    qtype := t
    options := formatOptions t q.options
    dimension := q.dimension.getD (.str [])
    standard := q.standard.getD [] }

/-- Lines 121–143. -/
def formatQuestions (qs : List InQuestion) : List FQuestion :=
  qs.enum.map fun p => formatQuestion p.1 p.2

/-- Line 164: question types routed to the subjective branch. -/
def isSubjType (t : List Char) : Bool :=
  t = "subject_question".toList || t = "career_transition".toList ||
    t = "career_choice".toList

/-- Lines 149–170: questions whose id has a submitted answer become QA
pairs; subjective types go to the second list, everything else to the
first (with its options attached). -/
def splitQA (fqs : List FQuestion) (answers : List (List Char × Json)) :
    List QAPair × List QAPair :=
  match fqs with
  | [] => ([], [])
  | q :: rest =>
    let (os, ss) := splitQA rest answers
    match assocGet answers q.qid with
    | none => (os, ss)
    | some ans =>
      let qa : QAPair :=
        { question := q.stem, dimension := q.dimension, answer := ans
          qtype := q.qtype, standard := q.standard, options := []
          user_choice := none }
      if isSubjType q.qtype then (os, qa :: ss)
      else ({ qa with options := q.options } :: os, ss)

/-- Lines 177–188: the first option whose `key` compares `==` to the
submitted answer becomes the user choice (`break` after the first hit);
the recorded key is the submitted answer. -/
def findChoice (opts : List FOption) (ans : Json) : Option UserChoice :=
  (opts.find? fun o => jsonEqPy o.key ans).map fun o =>
    { key := ans, content := o.content, score := o.score }

/-- The loop at lines 177–188 applied to every objective QA pair. -/
def addUserChoices (l : List QAPair) : List QAPair :=
  l.map fun qa => { qa with user_choice := findChoice qa.options qa.answer }

/-- The five dimension codes, in the order of the literal dictionaries at
lines 191, 203 and 209. -/
def dims5 : List (List Char) :=
  ["R".toList, "E".toList, "A".toList, "D".toList, "Y".toList]

/-- The literal `{"R": 0, "E": 0, "A": 0, "D": 0, "Y": 0}` with integer
values (line 191). -/
def initScoresInt : List (List Char × Int) := dims5.map fun d => (d, 0)

/-- The same literal seen as a JSON-valued dict (line 203; subjective
scores can be overwritten with arbitrary extracted values). -/
def initScoresJson : List (List Char × Json) := dims5.map fun d => (d, .num 0)

/-- Python `int + value` for the score additions at lines 195 and 302:
integers add, booleans count as 1/0, anything else raises `TypeError`. -/
def addable : Json → Option Int
  | .num n => some n
  | .bool b => some (if b then 1 else 0)
  | _ => none

/-- Lines 191–195: fold the resolved choices' scores per dimension.
`dimension in objective_scores` raises `TypeError` on an unhashable
dimension value (list or dict), which aborts the request; adding a
non-numeric option score likewise. -/
def computeObjectiveScores : List QAPair → List (List Char × Int) →
    Except (List Char) (List (List Char × Int))
  | [], scores => .ok scores
  | qa :: rest, scores =>
    match qa.dimension with
    | .arr _ => .error ("unhashable type in dict membership".toList)
    | .obj _ => .error ("unhashable type in dict membership".toList)
    | .str d =>
      match assocGet scores d with
      | none => computeObjectiveScores rest scores
      | some cur =>
        match qa.user_choice with
        | none => computeObjectiveScores rest scores
        | some ch =>
          match addable ch.score with
          | none => .error ("unsupported operand type for +=".toList)
          | some n => computeObjectiveScores rest (assocSet scores d (cur + n))
    | _ => computeObjectiveScores rest scores

/-- One grouped subjective response triple (lines 230–234). -/
structure SubjResp where
  question : List Char
  answer : Json
  standard : List Char

/-- Elementwise walk for `dimsOfValue` on a list-valued `dimension`. -/
def dimsOfList : List Json → Except (List Char) (List (List Char))
  | [] => .ok []
  | e :: rest =>
    match e with
    | .str s =>
      if s = [] then dimsOfList rest
      else if s ∈ dims5 then (dimsOfList rest).map (fun l => s :: l)
      else dimsOfList rest
    | .arr l => if l = [] then dimsOfList rest
      else .error ("unhashable type in dict membership".toList)
    | .obj l => if l = [] then dimsOfList rest
      else .error ("unhashable type in dict membership".toList)
    | .null => dimsOfList rest
    | .bool _ => dimsOfList rest
    | .num _ => dimsOfList rest

/-- Lines 216–226: the recognised dimensions of one subjective QA pair.
A list is walked elementwise (`if d and d in dimension_responses`: falsy
elements are skipped before the membership test, truthy unhashable
elements raise); a non-empty string is kept when it is a known dimension;
any other value contributes nothing. -/
def dimsOfValue (d : Json) : Except (List Char) (List (List Char)) :=
  match d with
  | .arr l => dimsOfList l
  | .str s => .ok (if s ≠ [] ∧ s ∈ dims5 then [s] else [])
  | _ => .ok []

/-- Lines 209–234: partition the subjective QA pairs' response triples by
recognised dimension, starting from `{"R": [], ..., "Y": []}` and
appending in pair order. -/
def groupByDim : List QAPair → List (List Char × List SubjResp) →
    Except (List Char) (List (List Char × List SubjResp))
  | [], groups => .ok groups
  | qa :: rest, groups =>
    match dimsOfValue qa.dimension with
    | .error e => .error e
    | .ok ds =>
      let resp : SubjResp :=
        { question := qa.question, answer := qa.answer, standard := qa.standard }
      groupByDim rest (ds.foldl (fun g d =>
        match assocGet g d with
        | some cur => assocSet g d (cur ++ [resp])
        | none => g) groups)

/-- The initial `dimension_responses` literal (line 209). -/
def initGroups : List (List Char × List SubjResp) := dims5.map fun d => (d, [])

/-- Line 237: the dimensions that have at least one grouped response, in
dict order. -/
def dimsWithData (g : List (List Char × List SubjResp)) : List (List Char) :=
  (g.filter fun p => !p.2.isEmpty).map (·.1)

/-- The fallback record of lines 292–296.  The embedded failure
description is abstracted to a fixed text (the code interpolates the
exception's message). -/
def fallbackMsg : List Char := "分析失败".toList

/-- The record `{"analysis": ..., "score": 2, "key_traits": []}`. -/
def fallbackRecord : Json :=
  .obj [("analysis".toList, .str fallbackMsg), ("score".toList, .num 2),
    ("key_traits".toList, .arr [])]

/-- Lines 282–297, for a single dimension: the call result is either a
raised error (`none`, handled by the `except` branch) or an extracted
value.  `"score" in subj_result` raises on non-containers (caught, hence
fallback); a hit on a non-dict raises when subscripted (fallback); and a
miss on a non-dict raises `AttributeError` at the success log line's
`.get` (fallback).  Only a dict survives: with a `score` member its value
is stored verbatim into `subjective_scores`, without one the score is
left unchanged.  Returns the analysis record and the score to store. -/
def subjOutcome (callRes : Option Json) : Json × Option Json :=
  match callRes with
  | none => (fallbackRecord, some (.num 2))
  | some v =>
    match inJson ("score".toList) v with
    | none => (fallbackRecord, some (.num 2))
    | some true =>
      match v with
      | .obj kvs =>
        match assocGet kvs ("score".toList) with
        | some sv => (.obj kvs, some sv)
        | none => (.obj kvs, none)
      | _ => (fallbackRecord, some (.num 2))
    | some false =>
      match v with
      | .obj kvs => (.obj kvs, none)
      | _ => (fallbackRecord, some (.num 2))

/-- Lines 246–297: process the populated dimensions in order, each with
its own independent call to the text-generation service (modelled by the
oracle `subjO`, giving each dimension's raw completion or transport
failure), accumulating `subjective_analysis` and `subjective_scores`. -/
def subjLoop (subjO : List Char → Option (List Char)) :
    List (List Char) → List (List Char × Json) × List (List Char × Json) →
    List (List Char × Json) × List (List Char × Json)
  | [], st => st
  | d :: rest, (am, sc) =>
    let (record, supd) := subjOutcome (callAiModel (subjO d))
    subjLoop subjO rest
      (objInsert am d record,
       match supd with
       | some v => assocSet sc d v
       | none => sc)

/-- Lines 300–302: `total_scores[dim] = objective_scores[dim] +
subjective_scores[dim]` over the five dimensions in order; a non-numeric
stored subjective value makes the addition raise, aborting the request. -/
def computeTotals (obj : List (List Char × Int))
    (subj : List (List Char × Json)) : Except (List Char) (List (List Char × Int)) :=
  go dims5
where
  /-- The loop body over the listed dimensions. -/
  go : List (List Char) → Except (List Char) (List (List Char × Int))
    | [] => .ok []
    | d :: rest =>
      match assocGet obj d, (assocGet subj d).bind addable with
      | some a, some b => (go rest).map (fun l => (d, a + b) :: l)
      | _, _ => .error ("unsupported operand type for +".toList)

/-- An integer score dict as the JSON value embedded in the response. -/
def intScoresJson (l : List (List Char × Int)) : Json :=
  .obj (l.map fun p => (p.1, .num p.2))

/-- Lines 399–403: overwrite the `score` of every member of the
`dimensions` dict whose key is a computed dimension with the computed
total.  Setting an item on a non-dict member raises, aborting the
request; members with unknown keys are left untouched. -/
def reconcileDims (totals : List (List Char × Int)) :
    List (List Char × Json) → Except (List Char) (List (List Char × Json))
  | [] => .ok []
  | (k, det) :: rest =>
    match assocGet totals k with
    | none => (reconcileDims totals rest).map (fun l => (k, det) :: l)
    | some n =>
      match det with
      | .obj dkvs =>
        (reconcileDims totals rest).map
          (fun l => (k, .obj (objInsert dkvs ("score".toList) (.num n))) :: l)
      | _ => .error ("item assignment on a non-dict".toList)

/-- Lines 394–406: attach the computed score dicts to the report value
(item assignment on a non-dict report raises), reconcile the `dimensions`
member when present (it is a dict whenever `call_ai_model` succeeded),
and attach the subjective analysis map. -/
def assembleReport (v : Json) (objS : List (List Char × Int))
    (subjS : List (List Char × Json)) (totals : List (List Char × Int))
    (am : List (List Char × Json)) : Except (List Char) Json :=
  match v with
  | .obj kvs =>
    let k1 := objInsert kvs ("objective_scores".toList) (intScoresJson objS)
    let k2 := objInsert k1 ("subjective_scores".toList) (.obj subjS)
    let k3 := objInsert k2 ("dimension_scores".toList) (intScoresJson totals)
    match assocGet k3 ("dimensions".toList) with
    | none => .ok (.obj (objInsert k3 ("subjective_analysis".toList) (.obj am)))
    | some (.obj dims) =>
      match reconcileDims totals dims with
      | .error e => .error e
      | .ok dims2 =>
        .ok (.obj (objInsert (assocSet k3 ("dimensions".toList) (.obj dims2))
          ("subjective_analysis".toList) (.obj am)))
    | some _ => .error ("items on a non-dict".toList)
  | _ => .error ("item assignment on a non-dict".toList)

/-- Python truthiness of a JSON value. -/
def pyTruthy : Json → Bool
  | .null => false
  | .bool b => b
  | .num n => n ≠ 0
  | .str s => !s.isEmpty
  | .arr l => !l.isEmpty
  | .obj l => !l.isEmpty

/-- Whether `value[:50]` is defined (strings and lists slice; anything
else raises `TypeError`). -/
def pySliceable : Json → Bool
  | .str _ => true
  | .arr _ => true
  | _ => false

/-- Whether a JSON value is a string. -/
def isStrJson : Json → Bool
  | .str _ => true
  | _ => false

/-- The debug-print block at lines 419–431 can raise after the result was
already stored: printing a truthy non-sliceable `analysis` value raises
`TypeError` at `value[:50]`, and joining a non-empty `key_traits` list
whose first three elements are not all strings raises at
`', '.join(value[:3])`.  This predicate says whether the block raises for
one stored analysis record (non-dict records only have their type
printed, which is safe). -/
def entryHazard : Json → Bool
  | .obj kvs =>
    kvs.any fun p =>
      (p.1 = "analysis".toList && pyTruthy p.2 && !pySliceable p.2) ||
      (p.1 = "key_traits".toList &&
        (match p.2 with
         | .arr l => !l.isEmpty && (l.take 3).any (fun e => !isStrJson e)
         | _ => false))
  | _ => false

/-- Whether the debug-print block raises for the whole analysis map. -/
def renderHazard (am : List (List Char × Json)) : Bool :=
  am.any fun p => entryHazard p.2

/-- The `{code, message, data}` envelope (`APIResponse`, lines 43–46). -/
structure APIResponse where
  code : Int
  message : List Char
  data : Option Json
deriving Repr, DecidableEq

/-- One entry of the module-level `analysis_results` list (lines 409–413).
The timestamp is supplied by the caller's clock. -/
structure LogEntry where
  username : Json
  result : Json
  timestamp : Nat
deriving Repr, DecidableEq

/-- Line 410: `user_info.get("username", "unknown")`. -/
def usernameOf (req : Request) : Json :=
  (assocGet req.user_info ("username".toList)).getD (.str ("unknown".toList))

/-- The objective QA pairs of a request with resolved user choices
(lines 146–188). -/
def objPairsOf (req : Request) : List QAPair :=
  addUserChoices (splitQA (formatQuestions req.questions) req.answers).1

/-- The subjective QA pairs of a request (line 147 with lines 149–170). -/
def subjPairsOf (req : Request) : List QAPair :=
  (splitQA (formatQuestions req.questions) req.answers).2

/-- Lines 202–297 as one stage: nothing happens when there are no
subjective pairs (line 205); otherwise group by dimension and run the
per-dimension loop over the populated dimensions. -/
def subjStage (subjO : List Char → Option (List Char)) (req : Request) :
    Except (List Char) (List (List Char × Json) × List (List Char × Json)) :=
  if (subjPairsOf req).isEmpty then .ok ([], initScoresJson)
  else (groupByDim (subjPairsOf req) initGroups).map fun g =>
    subjLoop subjO (dimsWithData g) ([], initScoresJson)

/-- Lines 114–406 up to the final report value: everything inside the
`try` before the result is stored.  The text-generation service is an
oracle: `subjO` maps a dimension code to the raw completion for that
dimension's scoring call (or `none` for a transport/timeout/empty-choices
failure), and `reportO` is the raw completion of the single
report-orchestration call.  Prompt texts are irrelevant to every observable
of the handler and are not modelled.  Returns the final report value and
the subjective-analysis map, or the failure message of the raised
exception. -/
def pipeline (subjO : List Char → Option (List Char))
    (reportO : Option (List Char)) (req : Request) :
    Except (List Char) (Json × List (List Char × Json)) :=
  match computeObjectiveScores (objPairsOf req) initScoresInt with
  | .error e => .error e
  | .ok objS =>
    match subjStage subjO req with
    | .error e => .error e
    | .ok (am, subjS) =>
      match computeTotals objS subjS with
      | .error e => .error e
      | .ok totals =>
        match callAiModel reportO with
        | none => .error ("AI call failed".toList)
        | some v =>
          match assembleReport v objS subjS totals am with
          | .error e => .error e
          | .ok result => .ok (result, am)

/-- The message prefix of the `except` branch (line 450). -/
def failMsg : List Char := "分析失败: ".toList

/-- The success message (line 441). -/
def okMsg : List Char := "分析成功".toList

/-- The whole `analyze_data` handler (lines 111–452) acting on the
module-level `analysis_results` list: returns the response envelope and
the new list.  On success the result entry is appended (lines 409–413)
and the envelope carries the report; any exception before the append
yields the 500 envelope with the list unchanged; an exception raised by
the debug-print block after the append (see `entryHazard`) yields the 500
envelope with the entry still appended. -/
def analyzeData (subjO : List Char → Option (List Char))
    (reportO : Option (List Char)) (req : Request) (ts : Nat)
    (log : List LogEntry) : APIResponse × List LogEntry :=
  match pipeline subjO reportO req with
  | .error e => (⟨500, failMsg ++ e, none⟩, log)
  | .ok (result, am) =>
    let log2 := log ++ [⟨usernameOf req, result, ts⟩]
    if renderHazard am then
      (⟨500, failMsg ++ "TypeError while printing".toList, none⟩, log2)
    else
      (⟨200, okMsg, some result⟩, log2)

/-- The payload `{"score": 3,}` of the spec's repair example. -/
def trailingCommaPayload : List Char := "\x7b\"score\": 3,\x7d".toList

/-- C7: the repair step removes a comma immediately preceding a closing
brace (across whitespace) before parsing, so `{"score": 3,}` is repaired
to `{"score": 3}` and extraction succeeds with `score == 3`. -/
theorem claim7_trailing_comma_repair :
    repairJson trailingCommaPayload = "\x7b\"score\": 3\x7d".toList ∧
    extractJson trailingCommaPayload =
      some (.obj [("score".toList, .num 3)]) := by
  constructor <;> rfl

/-- A syntactically valid payload whose string value contains `",}"`. -/
def commaBracePayload : List Char := "\x7b\"a\": \",\x7d\"\x7d".toList

/-- C10: the comma repairs are applied inside string literals too, so
there is a valid payload (here `{"a": ",}"}`) on which the extractor
returns a different value than direct parsing: the stored string loses
its comma. -/
theorem claim10_repair_corrupts_string_literal :
    jsonParse commaBracePayload = some (.obj [("a".toList, .str ",\x7d".toList)]) ∧
    extractJson commaBracePayload = some (.obj [("a".toList, .str "\x7d".toList)]) ∧
    (.obj [("a".toList, .str "\x7d".toList)] : Json) ≠
      .obj [("a".toList, .str ",\x7d".toList)] := by
  refine ⟨rfl, rfl, by decide⟩

/-- Field access on a JSON object value (`none` on other values). -/
def jGet (j : Json) (k : List Char) : Option Json :=
  match j with
  | .obj kvs => assocGet kvs k
  | _ => none

/-- A subjective question on dimension `R` used by several concrete
scenarios. -/
def subjQuestionR : InQuestion :=
  { qid := some ("1".toList), stem := some ("q".toList)
    qtype := some ("subject_question".toList), options := none
    dimension := some (.str ("R".toList)), standard := some ("std".toList) }

/-- A request containing only `subjQuestionR`, answered. -/
def subjOnlyReq : Request :=
  { user_info := [("username".toList, .str ("bob".toList))]
    questions := [subjQuestionR]
    answers := [("1".toList, .str ("my answer".toList))] }

/-- An oracle whose scoring completion carries an out-of-range score. -/
def score7Oracle : List Char → Option (List Char) :=
  fun _ => some ("\x7b\"score\": 7\x7d".toList)

/-- A report completion with no `dimensions` member. -/
def emptyReport : Option (List Char) := some ("\x7b\x7d".toList)

/-- C4 counterexample: with the service returning `{"score": 7}` for the
only subjective dimension, the request succeeds and the response stores
`subjective_scores["R"] = 7`, which is outside `[0, 4]`: the handler
never bounds the extracted score. -/
theorem claim4_counterexample :
    (analyzeData score7Oracle emptyReport subjOnlyReq 7 []).1.code = 200 ∧
    ((analyzeData score7Oracle emptyReport subjOnlyReq 7 []).1.data.bind
      (fun j => (jGet j ("subjective_scores".toList)).bind
        (fun s => jGet s ("R".toList)))) = some (.num 7) ∧
    ¬ ((0 : Int) ≤ 7 ∧ (7 : Int) ≤ 4) := by
  refine ⟨rfl, rfl, by decide⟩

/-- An oracle whose scoring completion has a truthy, non-sliceable
`analysis` field: extraction succeeds and the record is stored, but the
debug-print block's `value[:50]` raises on it. -/
def intAnalysisOracle : List Char → Option (List Char) :=
  fun _ => some ("\x7b\"score\": 3, \"analysis\": 5\x7d".toList)

/-- C9 (code evidence): with `intAnalysisOracle` the whole pipeline and
the report call succeed, the result is appended to the results list
(line 409), and only then does the debug-print block raise (`5[:50]` is a
`TypeError`), so the caller receives the 500 envelope with no data while
the log has gained an entry: a failed request can append. -/
theorem claim9_append_on_failed_request :
    (analyzeData intAnalysisOracle emptyReport subjOnlyReq 7 []).1.code = 500 ∧
    (analyzeData intAnalysisOracle emptyReport subjOnlyReq 7 []).1.data = none ∧
    (analyzeData intAnalysisOracle emptyReport subjOnlyReq 7 []).2.length = 1 := by
  refine ⟨rfl, rfl, rfl⟩

/-- A well-formed payload whose string value contains a fence delimiter. -/
def backtickPayload : List Char := "\x7b\"a\": \"x``` y\"\x7d".toList

/-- Wrap a payload in the fenced code block form the service is prompted
to produce. -/
def fenceWrap (p : List Char) : List Char :=
  "```json\n".toList ++ p ++ "\n```".toList

/-- C8 counterexample: `{"a": "x``` y"}` is well-formed (it parses), and
unfenced it extracts to the parsed object, but fenced the lazy capture
stops at the ```` ``` ```` inside the string literal and extraction
fails: fenced and unfenced extraction are not identical for every
well-formed payload. -/
theorem claim8_counterexample :
    jsonParse backtickPayload =
      some (.obj [("a".toList, .str ("x``` y".toList))]) ∧
    extractJson backtickPayload =
      some (.obj [("a".toList, .str ("x``` y".toList))]) ∧
    extractJson (fenceWrap backtickPayload) = none := by
  refine ⟨rfl, rfl, rfl⟩

/-- C5: whenever the report-orchestration call fails — transport/timeout
(`none` outcome) or extraction failure, i.e. whenever `call_ai_model`
raises — the handler returns the `{code: 500, message, data: null}`
envelope (and, failing before the store, leaves the results list
unchanged); the exception never escapes to the caller. -/
theorem claim5_report_failure_envelope (subjO : List Char → Option (List Char))
    (reportO : Option (List Char)) (req : Request) (ts : Nat)
    (log : List LogEntry) (h : callAiModel reportO = none) :
    (analyzeData subjO reportO req ts log).1.code = 500 ∧
    (analyzeData subjO reportO req ts log).1.data = none ∧
    (analyzeData subjO reportO req ts log).2 = log := by
  rcases hpipe : pipeline subjO reportO req with e | ⟨result, am⟩
  · simp [analyzeData, hpipe]
  · exfalso
    unfold pipeline at hpipe
    rw [h] at hpipe
    dsimp only at hpipe
    repeat' split at hpipe
    all_goals simp_all

/-- C5 witness: a concrete failing report call. -/
theorem claim5_witness :
    callAiModel none = none ∧
    ((analyzeData (fun _ => none) none subjOnlyReq 7 []).1.code = 500 ∧
     (analyzeData (fun _ => none) none subjOnlyReq 7 []).1.data = none ∧
     (analyzeData (fun _ => none) none subjOnlyReq 7 []).2 = []) :=
  ⟨rfl, claim5_report_failure_envelope (fun _ => none) none subjOnlyReq 7 [] rfl⟩

/-- The single-choice question of the spec's objective-scoring example. -/
def c6Question : InQuestion :=
  { qid := some ("1".toList), stem := some ("q".toList)
    qtype := some ("single_choice".toList)
    options := some
      [{ key := some (.str ("1".toList)), content := some (.str ("c1".toList))
         score := some (.num 2) },
       { key := some (.str ("2".toList)), content := some (.str ("c2".toList))
         score := some (.num 4) }]
    dimension := some (.str ("R".toList)), standard := none }

/-- The example request: the question above with submitted answer `"2"`. -/
def c6Req : Request :=
  { user_info := []
    questions := [c6Question]
    answers := [("1".toList, .str ("2".toList))] }

theorem assocGet_objInsert_self (l : List (List Char × Json)) (k : List Char)
    (v : Json) : assocGet (objInsert l k v) k = some v := by
  induction l with
  | nil => simp [objInsert, assocGet]
  | cons p rest ih =>
    obtain ⟨k0, v0⟩ := p
    by_cases hk : k0 = k <;> simp [objInsert, assocGet, hk, ih]

theorem assocGet_objInsert_ne (l : List (List Char × Json)) (k k2 : List Char)
    (v : Json) (h : k2 ≠ k) : assocGet (objInsert l k v) k2 = assocGet l k2 := by
  induction l with
  | nil => simp [objInsert, assocGet, Ne.symm h]
  | cons p rest ih =>
    obtain ⟨k0, v0⟩ := p
    by_cases hk : k0 = k
    · subst hk
      simp [objInsert, assocGet, Ne.symm h]
    · simp [objInsert, if_neg hk, assocGet, ih]

theorem assocGet_assocSet_ne {α : Type} (l : List (List Char × α))
    (k k2 : List Char) (v : α) (h : k2 ≠ k) :
    assocGet (assocSet l k v) k2 = assocGet l k2 := by
  induction l with
  | nil => simp [assocSet]
  | cons p rest ih =>
    obtain ⟨k0, v0⟩ := p
    by_cases hk : k0 = k
    · subst hk
      simp [assocSet, assocGet, Ne.symm h]
    · simp [assocSet, if_neg hk, assocGet, ih]

theorem assocGet_assocSet_isSome {α : Type} (l : List (List Char × α))
    (k : List Char) (v : α) (h : (assocGet l k).isSome) :
    assocGet (assocSet l k v) k = some v := by
  induction l with
  | nil => simp [assocGet] at h
  | cons p rest ih =>
    obtain ⟨k0, v0⟩ := p
    by_cases hk : k0 = k
    · subst hk; simp [assocSet, assocGet]
    · simp only [assocGet, if_neg hk] at h
      simp [assocSet, if_neg hk, assocGet, hk, ih h]

theorem assocGet_assocSet_cases {α : Type} (l : List (List Char × α))
    (k0 k : List Char) (v0 v : α)
    (h : assocGet (assocSet l k0 v0) k = some v) :
    (k = k0 ∧ v = v0) ∨ assocGet l k = some v := by
  induction l with
  | nil => simp [assocSet, assocGet] at h
  | cons p rest ih =>
    obtain ⟨ka, va⟩ := p
    by_cases hk : ka = k0
    · subst hk
      simp only [assocSet, if_pos rfl] at h
      by_cases hkk : ka = k
      · subst hkk
        simp only [assocGet, if_pos rfl] at h
        exact .inl ⟨rfl, (Option.some_inj.mp h).symm⟩
      · simp only [assocGet, if_neg hkk] at h
        right
        simp only [assocGet, if_neg hkk]
        exact h
    · simp only [assocSet, if_neg hk] at h
      simp only [assocGet] at h ⊢
      by_cases hkk : ka = k
      · simp only [if_pos hkk] at h ⊢
        exact .inr h
      · simp only [if_neg hkk] at h ⊢
        exact ih h

theorem assocSet_keys {α : Type} (l : List (List Char × α)) (k : List Char)
    (v : α) : (assocSet l k v).map Prod.fst = l.map Prod.fst := by
  induction l with
  | nil => simp [assocSet]
  | cons p rest ih =>
    obtain ⟨k0, v0⟩ := p
    by_cases hk : k0 = k <;> simp [assocSet, hk, ih]

theorem computeObjectiveScores_keys :
    ∀ (pairs : List QAPair) (s s2 : List (List Char × Int)),
      computeObjectiveScores pairs s = .ok s2 →
      s2.map Prod.fst = s.map Prod.fst
  | [], s, s2, h => by
    simp only [computeObjectiveScores] at h
    cases h
    rfl
  | qa :: rest, s, s2, h => by
    simp only [computeObjectiveScores] at h
    repeat' split at h
    all_goals first
      | cases h
      | (have ih := computeObjectiveScores_keys rest _ _ h
         first
           | exact ih
           | exact ih.trans (assocSet_keys _ _ _))

theorem subjLoop_keys (subjO : List Char → Option (List Char)) :
    ∀ (L : List (List Char))
      (st : List (List Char × Json) × List (List Char × Json)),
      ((subjLoop subjO L st).2).map Prod.fst = st.2.map Prod.fst
  | [], st => rfl
  | d :: rest, (am, sc) => by
    simp only [subjLoop]
    split
    · exact (subjLoop_keys subjO rest _).trans (assocSet_keys _ _ _)
    · exact subjLoop_keys subjO rest _

theorem initScoresJson_keys : initScoresJson.map Prod.fst = dims5 := rfl

theorem initScoresInt_keys : initScoresInt.map Prod.fst = dims5 := rfl

theorem subjStage_keys (subjO : List Char → Option (List Char)) (req : Request)
    (am : List (List Char × Json)) (subjS : List (List Char × Json))
    (h : subjStage subjO req = .ok (am, subjS)) :
    subjS.map Prod.fst = dims5 := by
  unfold subjStage at h
  split at h
  · cases h
    rfl
  · rcases hg : groupByDim (subjPairsOf req) initGroups with e | g
    · rw [hg] at h
      cases h
    · rw [hg] at h
      simp only [Except.map] at h
      injection h with h2
      have h3 := congrArg Prod.snd h2
      simp only at h3
      rw [← h3]
      exact (subjLoop_keys subjO _ _).trans initScoresJson_keys

theorem map_fst_dims5_destruct {α : Type} (l : List (List Char × α))
    (h : l.map Prod.fst = dims5) :
    ∃ v1 v2 v3 v4 v5, l = [("R".toList, v1), ("E".toList, v2),
      ("A".toList, v3), ("D".toList, v4), ("Y".toList, v5)] := by
  rcases l with _ | ⟨⟨k1, v1⟩, _ | ⟨⟨k2, v2⟩, _ | ⟨⟨k3, v3⟩,
    _ | ⟨⟨k4, v4⟩, _ | ⟨⟨k5, v5⟩, tail⟩⟩⟩⟩⟩
  · have hlen := congrArg List.length h
    simp [dims5] at hlen
  · have hlen := congrArg List.length h
    simp [dims5] at hlen
  · have hlen := congrArg List.length h
    simp [dims5] at hlen
  · have hlen := congrArg List.length h
    simp [dims5] at hlen
  · have hlen := congrArg List.length h
    simp [dims5] at hlen
  · simp only [List.map, dims5, List.cons.injEq] at h
    obtain ⟨e1, e2, e3, e4, e5, e6⟩ := h
    subst e1 e2 e3 e4 e5
    simp only [List.map_eq_nil_iff] at e6
    subst e6
    exact ⟨v1, v2, v3, v4, v5, rfl⟩

theorem assocGet_map_num (l : List (List Char × Int)) (k : List Char) :
    assocGet ((l.map fun p => (p.1, Json.num p.2))) k =
      (assocGet l k).map Json.num := by
  induction l with
  | nil => rfl
  | cons p rest ih =>
    obtain ⟨k0, v0⟩ := p
    by_cases hk : k0 = k <;> simp [assocGet, hk, ih]

theorem reconcileDims_get :
    ∀ (totals : List (List Char × Int)) (dims dims2 : List (List Char × Json)),
      reconcileDims totals dims = .ok dims2 →
      ∀ (k : List Char) (det : Json), assocGet dims2 k = some det →
      ∀ (n : Int), assocGet totals k = some n →
      jGet det ("score".toList) = some (.num n)
  | totals, [], dims2, h => by
    simp only [reconcileDims] at h
    cases h
    intro k det hget
    simp [assocGet] at hget
  | totals, (ka, deta) :: rest, dims2, h => by
    intro k det hget n hn
    simp only [reconcileDims] at h
    split at h
    · rcases hr : reconcileDims totals rest with e | rest2
      · rw [hr] at h
        cases h
      · rw [hr] at h
        simp only [Except.map] at h
        cases h
        simp only [assocGet] at hget
        split at hget
        · rename_i hka
          subst hka
          simp_all
        · exact reconcileDims_get totals rest rest2 hr k det hget n hn
    · rename_i m hm
      split at h
      · rename_i dkvs
        rcases hr : reconcileDims totals rest with e | rest2
        · rw [hr] at h
          cases h
        · rw [hr] at h
          simp only [Except.map] at h
          cases h
          simp only [assocGet] at hget
          split at hget
          · rename_i hka
            subst hka
            rw [hn] at hm
            cases hm
            cases hget
            simp [jGet, assocGet_objInsert_self]
          · exact reconcileDims_get totals rest rest2 hr k det hget n hn
      · cases h

theorem jGet_obj (kvs : List (List Char × Json)) (k : List Char) :
    jGet (.obj kvs) k = assocGet kvs k := rfl

theorem analyzeData_200_destruct (subjO : List Char → Option (List Char))
    (reportO : Option (List Char)) (req : Request) (ts : Nat)
    (log : List LogEntry)
    (h : (analyzeData subjO reportO req ts log).1.code = 200) :
    ∃ result am, pipeline subjO reportO req = .ok (result, am) ∧
      renderHazard am = false ∧
      (analyzeData subjO reportO req ts log).1.data = some result ∧
      (analyzeData subjO reportO req ts log).2 =
        log ++ [⟨usernameOf req, result, ts⟩] := by
  rcases hp : pipeline subjO reportO req with e | ⟨result, am⟩
  · have heq : analyzeData subjO reportO req ts log =
        (⟨500, failMsg ++ e, none⟩, log) := by simp [analyzeData, hp]
    rw [heq] at h
    dsimp only at h
    exact absurd h (by decide)
  · by_cases hz : renderHazard am
    · have heq : analyzeData subjO reportO req ts log =
        (⟨500, failMsg ++ "TypeError while printing".toList, none⟩,
          log ++ [⟨usernameOf req, result, ts⟩]) := by
        simp [analyzeData, hp, hz]
      rw [heq] at h
      dsimp only at h
      exact absurd h (by decide)
    · refine ⟨result, am, rfl, by simp [hz], ?_, ?_⟩ <;>
        simp [analyzeData, hp, hz]

theorem pipeline_ok_destruct (subjO : List Char → Option (List Char))
    (reportO : Option (List Char)) (req : Request) (result : Json)
    (am : List (List Char × Json))
    (h : pipeline subjO reportO req = .ok (result, am)) :
    ∃ objS subjS totals v,
      computeObjectiveScores (objPairsOf req) initScoresInt = .ok objS ∧
      subjStage subjO req = .ok (am, subjS) ∧
      computeTotals objS subjS = .ok totals ∧
      callAiModel reportO = some v ∧
      assembleReport v objS subjS totals am = .ok result := by
  unfold pipeline at h
  repeat' split at h
  all_goals cases h
  exact ⟨_, _, _, _, by assumption, by assumption, by assumption,
    by assumption, by assumption⟩

theorem assembleReport_fields (v : Json) (objS totals : List (List Char × Int))
    (subjS am : List (List Char × Json)) (result : Json)
    (h : assembleReport v objS subjS totals am = .ok result) :
    jGet result ("objective_scores".toList) = some (intScoresJson objS) ∧
    jGet result ("subjective_scores".toList) = some (.obj subjS) ∧
    jGet result ("dimension_scores".toList) = some (intScoresJson totals) ∧
    (∀ dv, jGet result ("dimensions".toList) = some dv →
      ∃ dims dims2, dv = .obj dims2 ∧ reconcileDims totals dims = .ok dims2) ∧
    jGet result ("subjective_analysis".toList) = some (.obj am) := by
  have nOA : "objective_scores".toList ≠ "subjective_analysis".toList := by decide
  have nOM : "objective_scores".toList ≠ "dimensions".toList := by decide
  have nOD : "objective_scores".toList ≠ "dimension_scores".toList := by decide
  have nOS : "objective_scores".toList ≠ "subjective_scores".toList := by decide
  have nSA : "subjective_scores".toList ≠ "subjective_analysis".toList := by decide
  have nSM : "subjective_scores".toList ≠ "dimensions".toList := by decide
  have nSD : "subjective_scores".toList ≠ "dimension_scores".toList := by decide
  have nDA : "dimension_scores".toList ≠ "subjective_analysis".toList := by decide
  have nDM : "dimension_scores".toList ≠ "dimensions".toList := by decide
  have nMA : "dimensions".toList ≠ "subjective_analysis".toList := by decide
  unfold assembleReport at h
  split at h
  case h_2 => cases h
  rename_i kvs
  dsimp only at h
  split at h
  · rename_i hnone
    simp only [Except.ok.injEq] at h
    subst h
    refine ⟨?_, ?_, ?_, ?_, ?_⟩
    · rw [jGet_obj, assocGet_objInsert_ne _ _ _ _ nOA,
        assocGet_objInsert_ne _ _ _ _ nOD, assocGet_objInsert_ne _ _ _ _ nOS,
        assocGet_objInsert_self]
    · rw [jGet_obj, assocGet_objInsert_ne _ _ _ _ nSA,
        assocGet_objInsert_ne _ _ _ _ nSD, assocGet_objInsert_self]
    · rw [jGet_obj, assocGet_objInsert_ne _ _ _ _ nDA,
        assocGet_objInsert_self]
    · intro dv hdv
      rw [jGet_obj, assocGet_objInsert_ne _ _ _ _ nMA, hnone] at hdv
      cases hdv
    · rw [jGet_obj, assocGet_objInsert_self]
  · rename_i dims hdims
    split at h
    case h_1 => cases h
    rename_i dims2 hrec
    simp only [Except.ok.injEq] at h
    subst h
    refine ⟨?_, ?_, ?_, ?_, ?_⟩
    · rw [jGet_obj, assocGet_objInsert_ne _ _ _ _ nOA,
        assocGet_assocSet_ne _ _ _ _ nOM, assocGet_objInsert_ne _ _ _ _ nOD,
        assocGet_objInsert_ne _ _ _ _ nOS, assocGet_objInsert_self]
    · rw [jGet_obj, assocGet_objInsert_ne _ _ _ _ nSA,
        assocGet_assocSet_ne _ _ _ _ nSM, assocGet_objInsert_ne _ _ _ _ nSD,
        assocGet_objInsert_self]
    · rw [jGet_obj, assocGet_objInsert_ne _ _ _ _ nDA,
        assocGet_assocSet_ne _ _ _ _ nDM, assocGet_objInsert_self]
    · intro dv hdv
      rw [jGet_obj, assocGet_objInsert_ne _ _ _ _ nMA,
        assocGet_assocSet_isSome _ _ _
          (by exact Option.isSome_iff_exists.mpr ⟨_, hdims⟩)] at hdv
      exact ⟨dims, dims2, (Option.some_inj.mp hdv).symm, hrec⟩
    · rw [jGet_obj, assocGet_objInsert_self]
  · cases h

/-- C1: in a successful response, for every dimension key present in the
report's `dimensions` mapping (i.e. every key that also has a computed
total, exposed as the response's `dimension_scores`), the embedded
`score` equals that computed total exactly, whatever score the
text-generation service wrote there. -/
theorem claim1_reconciled_dimension_scores
    (subjO : List Char → Option (List Char)) (reportO : Option (List Char))
    (req : Request) (ts : Nat) (log : List LogEntry)
    (h200 : (analyzeData subjO reportO req ts log).1.code = 200)
    (data : Json)
    (hdata : (analyzeData subjO reportO req ts log).1.data = some data)
    (ds : List (List Char × Json))
    (hds : jGet data ("dimensions".toList) = some (.obj ds))
    (tj : Json) (htj : jGet data ("dimension_scores".toList) = some tj)
    (k : List Char) (det : Json) (hk : assocGet ds k = some det)
    (tv : Json) (htv : jGet tj k = some tv) :
    jGet det ("score".toList) = some tv := by
  obtain ⟨result, am, hp, hz, hd, hl⟩ :=
    analyzeData_200_destruct _ _ _ _ _ h200
  rw [hdata] at hd
  obtain rfl : data = result := Option.some_inj.mp hd
  obtain ⟨objS, subjS, totals, v, hobj, hsubj, htot, hcall, hasm⟩ :=
    pipeline_ok_destruct _ _ _ _ _ hp
  obtain ⟨hO, hS, hD, hM, hA⟩ := assembleReport_fields _ _ _ _ _ _ hasm
  obtain ⟨dims, dims2, hdj, hrec⟩ := hM _ hds
  injection hdj with hdseq
  rw [hdseq] at hk
  rw [hD] at htj
  obtain rfl : tj = intScoresJson totals := (Option.some_inj.mp htj).symm
  rw [show intScoresJson totals =
    .obj (totals.map fun p => (p.1, Json.num p.2)) from rfl, jGet_obj,
    assocGet_map_num] at htv
  rcases hn : assocGet totals k with _ | n
  · rw [hn] at htv
    cases htv
  · rw [hn] at htv
    obtain rfl : tv = Json.num n := (Option.some_inj.mp htv).symm
    exact reconcileDims_get totals dims dims2 hrec k det hk n hn

/-- Scoring oracle answering every dimension with score 3. -/
def c1SubjO : List Char → Option (List Char) :=
  fun _ => some ("\x7b\"score\": 3\x7d".toList)

/-- Report completion whose `dimensions.R.score` is the wrong value 99. -/
def c1ReportO : Option (List Char) :=
  some ("\x7b\"dimensions\": \x7b\"R\": \x7b\"score\": 99\x7d\x7d\x7d".toList)

/-- The response data of the `c1SubjO`/`c1ReportO` run on `subjOnlyReq`. -/
def c1Data : Json :=
  .obj [("dimensions".toList, .obj [("R".toList,
      .obj [("score".toList, .num 3)])]),
    ("dimension_scores".toList, .obj [("R".toList, .num 3),
      ("E".toList, .num 0), ("A".toList, .num 0), ("D".toList, .num 0),
      ("Y".toList, .num 0)]),
    ("objective_scores".toList, .obj [("R".toList, .num 0),
      ("E".toList, .num 0), ("A".toList, .num 0), ("D".toList, .num 0),
      ("Y".toList, .num 0)]),
    ("subjective_scores".toList, .obj [("R".toList, .num 3),
      ("E".toList, .num 0), ("A".toList, .num 0), ("D".toList, .num 0),
      ("Y".toList, .num 0)]),
    ("subjective_analysis".toList, .obj [("R".toList,
      .obj [("score".toList, .num 3)])])]

/-- C1 witness: the `c1ReportO` run returns 200 and the reconciled `R`
entry carries the computed total 3, not the service's 99. -/
theorem claim1_witness :
    jGet (.obj [("score".toList, Json.num 3)]) ("score".toList) =
      some (.num 3) :=
  claim1_reconciled_dimension_scores c1SubjO c1ReportO subjOnlyReq 0 [] rfl
    c1Data rfl
    [("R".toList, .obj [("score".toList, .num 3)])] rfl
    (.obj [("R".toList, .num 3), ("E".toList, .num 0), ("A".toList, .num 0),
      ("D".toList, .num 0), ("Y".toList, .num 0)]) rfl
    ("R".toList) (.obj [("score".toList, .num 3)]) rfl
    (.num 3) rfl

/-- C2: in every successful response the three score mappings carry
exactly the five keys `R, E, A, D, Y` (in order), for every dimension the
total equals the objective score plus the (numeric value of the)
subjective score, and with no subjective questions the subjective mapping
is the zero mapping and the totals equal the objective scores. -/
theorem claim2_total_scores_sum
    (subjO : List Char → Option (List Char)) (reportO : Option (List Char))
    (req : Request) (ts : Nat) (log : List LogEntry)
    (h200 : (analyzeData subjO reportO req ts log).1.code = 200)
    (data : Json)
    (hdata : (analyzeData subjO reportO req ts log).1.data = some data) :
    ∃ (oj tj : List (List Char × Int)) (sj : List (List Char × Json)),
      jGet data ("objective_scores".toList) = some (intScoresJson oj) ∧
      jGet data ("subjective_scores".toList) = some (.obj sj) ∧
      jGet data ("dimension_scores".toList) = some (intScoresJson tj) ∧
      oj.map Prod.fst = dims5 ∧ sj.map Prod.fst = dims5 ∧
      tj.map Prod.fst = dims5 ∧
      (∀ d ∈ dims5, ∃ a sv b, assocGet oj d = some a ∧
        assocGet sj d = some sv ∧ addable sv = some b ∧
        assocGet tj d = some (a + b)) ∧
      (subjPairsOf req = [] → sj = initScoresJson ∧ tj = oj) := by
  obtain ⟨result, am, hp, hz, hd, hl⟩ :=
    analyzeData_200_destruct _ _ _ _ _ h200
  rw [hdata] at hd
  obtain rfl : data = result := Option.some_inj.mp hd
  obtain ⟨objS, subjS, totals, v, hobj, hsubj, htot, hcall, hasm⟩ :=
    pipeline_ok_destruct _ _ _ _ _ hp
  obtain ⟨hO, hS, hD, hM, hA⟩ := assembleReport_fields _ _ _ _ _ _ hasm
  have hOk : objS.map Prod.fst = dims5 :=
    (computeObjectiveScores_keys _ _ _ hobj).trans initScoresInt_keys
  have hSk : subjS.map Prod.fst = dims5 := subjStage_keys _ _ _ _ hsubj
  obtain ⟨a1, a2, a3, a4, a5, rfl⟩ := map_fst_dims5_destruct objS hOk
  obtain ⟨s1, s2, s3, s4, s5, rfl⟩ := map_fst_dims5_destruct subjS hSk
  simp only [computeTotals, computeTotals.go, dims5, Option.some_bind,
    show assocGet [("R".toList, a1), ("E".toList, a2), ("A".toList, a3),
      ("D".toList, a4), ("Y".toList, a5)] ("R".toList) = some a1 from rfl,
    show assocGet [("R".toList, a1), ("E".toList, a2), ("A".toList, a3),
      ("D".toList, a4), ("Y".toList, a5)] ("E".toList) = some a2 from rfl,
    show assocGet [("R".toList, a1), ("E".toList, a2), ("A".toList, a3),
      ("D".toList, a4), ("Y".toList, a5)] ("A".toList) = some a3 from rfl,
    show assocGet [("R".toList, a1), ("E".toList, a2), ("A".toList, a3),
      ("D".toList, a4), ("Y".toList, a5)] ("D".toList) = some a4 from rfl,
    show assocGet [("R".toList, a1), ("E".toList, a2), ("A".toList, a3),
      ("D".toList, a4), ("Y".toList, a5)] ("Y".toList) = some a5 from rfl,
    show assocGet [("R".toList, s1), ("E".toList, s2), ("A".toList, s3),
      ("D".toList, s4), ("Y".toList, s5)] ("R".toList) = some s1 from rfl,
    show assocGet [("R".toList, s1), ("E".toList, s2), ("A".toList, s3),
      ("D".toList, s4), ("Y".toList, s5)] ("E".toList) = some s2 from rfl,
    show assocGet [("R".toList, s1), ("E".toList, s2), ("A".toList, s3),
      ("D".toList, s4), ("Y".toList, s5)] ("A".toList) = some s3 from rfl,
    show assocGet [("R".toList, s1), ("E".toList, s2), ("A".toList, s3),
      ("D".toList, s4), ("Y".toList, s5)] ("D".toList) = some s4 from rfl,
    show assocGet [("R".toList, s1), ("E".toList, s2), ("A".toList, s3),
      ("D".toList, s4), ("Y".toList, s5)] ("Y".toList) = some s5 from rfl]
    at htot
  rcases hb1 : addable s1 with _ | b1 <;> simp only [hb1] at htot
  · cases htot
  rcases hb2 : addable s2 with _ | b2 <;> simp only [hb2] at htot
  · cases htot
  rcases hb3 : addable s3 with _ | b3 <;> simp only [hb3] at htot
  · cases htot
  rcases hb4 : addable s4 with _ | b4 <;> simp only [hb4] at htot
  · cases htot
  rcases hb5 : addable s5 with _ | b5 <;> simp only [hb5] at htot
  · cases htot
  simp only [Except.map, Except.ok.injEq] at htot
  subst htot
  refine ⟨[("R".toList, a1), ("E".toList, a2), ("A".toList, a3),
    ("D".toList, a4), ("Y".toList, a5)],
    [("R".toList, a1 + b1), ("E".toList, a2 + b2), ("A".toList, a3 + b3),
      ("D".toList, a4 + b4), ("Y".toList, a5 + b5)],
    [("R".toList, s1), ("E".toList, s2), ("A".toList, s3),
      ("D".toList, s4), ("Y".toList, s5)],
    hO, hS, hD, rfl, rfl, rfl, ?_, ?_⟩
  · intro d hd
    simp only [dims5, List.mem_cons, List.not_mem_nil, or_false] at hd
    rcases hd with rfl | rfl | rfl | rfl | rfl
    · exact ⟨a1, s1, b1, rfl, rfl, hb1, rfl⟩
    · exact ⟨a2, s2, b2, rfl, rfl, hb2, rfl⟩
    · exact ⟨a3, s3, b3, rfl, rfl, hb3, rfl⟩
    · exact ⟨a4, s4, b4, rfl, rfl, hb4, rfl⟩
    · exact ⟨a5, s5, b5, rfl, rfl, hb5, rfl⟩
  · intro hemp
    unfold subjStage at hsubj
    rw [if_pos (by simp [hemp])] at hsubj
    simp only [Except.ok.injEq, Prod.mk.injEq] at hsubj
    obtain ⟨-, hsj⟩ := hsubj
    have hs0 : s1 = Json.num 0 ∧ s2 = Json.num 0 ∧ s3 = Json.num 0 ∧
        s4 = Json.num 0 ∧ s5 = Json.num 0 := by
      have := hsj
      simp only [initScoresJson, dims5, List.map, List.cons.injEq,
        Prod.mk.injEq] at this
      exact ⟨this.1.2.symm, this.2.1.2.symm, this.2.2.1.2.symm,
        this.2.2.2.1.2.symm, this.2.2.2.2.1.2.symm⟩
    obtain ⟨e1, e2, e3, e4, e5⟩ := hs0
    subst e1 e2 e3 e4 e5
    have z1 : b1 = 0 := by cases hb1; rfl
    have z2 : b2 = 0 := by cases hb2; rfl
    have z3 : b3 = 0 := by cases hb3; rfl
    have z4 : b4 = 0 := by cases hb4; rfl
    have z5 : b5 = 0 := by cases hb5; rfl
    subst z1 z2 z3 z4 z5
    exact ⟨hsj, by simp⟩

/-- The five-zero score dict as a JSON value. -/
def zeroScoresJson : Json :=
  .obj [("R".toList, .num 0), ("E".toList, .num 0), ("A".toList, .num 0),
    ("D".toList, .num 0), ("Y".toList, .num 0)]

/-- The response data of running the objective-only example request with
an empty report completion. -/
def c2Data : Json :=
  .obj [("objective_scores".toList, .obj [("R".toList, .num 4),
      ("E".toList, .num 0), ("A".toList, .num 0), ("D".toList, .num 0),
      ("Y".toList, .num 0)]),
    ("subjective_scores".toList, zeroScoresJson),
    ("dimension_scores".toList, .obj [("R".toList, .num 4),
      ("E".toList, .num 0), ("A".toList, .num 0), ("D".toList, .num 0),
      ("Y".toList, .num 0)]),
    ("subjective_analysis".toList, .obj [])]

/-- C2 witness: the objective-only example run returns 200 and its score
mappings satisfy the claim. -/
theorem claim2_witness :
    ∃ (oj tj : List (List Char × Int)) (sj : List (List Char × Json)),
      jGet c2Data ("objective_scores".toList) = some (intScoresJson oj) ∧
      jGet c2Data ("subjective_scores".toList) = some (.obj sj) ∧
      jGet c2Data ("dimension_scores".toList) = some (intScoresJson tj) ∧
      oj.map Prod.fst = dims5 ∧ sj.map Prod.fst = dims5 ∧
      tj.map Prod.fst = dims5 ∧
      (∀ d ∈ dims5, ∃ a sv b, assocGet oj d = some a ∧
        assocGet sj d = some sv ∧ addable sv = some b ∧
        assocGet tj d = some (a + b)) ∧
      (subjPairsOf c6Req = [] → sj = initScoresJson ∧ tj = oj) :=
  claim2_total_scores_sum (fun _ => none) emptyReport c6Req 0 [] rfl
    c2Data rfl

/-- Where a stored subjective score can come from: the untouched default
0, the fallback 2, or (verbatim) the `score` member of the record the
service returned for that dimension. -/
def scoreProvenance (subjO : List Char → Option (List Char))
    (k : List Char) (v : Json) : Prop :=
  v = .num 0 ∨ v = .num 2 ∨
    ∃ kvs, callAiModel (subjO k) = some (.obj kvs) ∧
      assocGet kvs ("score".toList) = some v

theorem subjLoop_cons (subjO : List Char → Option (List Char))
    (dk : List Char) (rest : List (List Char))
    (am sc : List (List Char × Json)) :
    subjLoop subjO (dk :: rest) (am, sc) =
      subjLoop subjO rest
        (objInsert am dk (subjOutcome (callAiModel (subjO dk))).1,
          match (subjOutcome (callAiModel (subjO dk))).2 with
          | some v0 => assocSet sc dk v0
          | none => sc) := by
  rcases hp : subjOutcome (callAiModel (subjO dk)) with ⟨record, supd⟩
  rw [subjLoop, hp]

theorem subjOutcome_snd_spec (callRes : Option Json) :
    (subjOutcome callRes).2 = none ∨ (subjOutcome callRes).2 = some (.num 2) ∨
    ∃ kvs sv, callRes = some (.obj kvs) ∧
      assocGet kvs ("score".toList) = some sv ∧
      (subjOutcome callRes).2 = some sv := by
  rcases callRes with _ | v
  · exact .inr (.inl rfl)
  rcases v with _ | b | n | s | l | kvs
  · exact .inr (.inl rfl)
  · exact .inr (.inl rfl)
  · exact .inr (.inl rfl)
  · cases hcb : containsSub ['s', 'c', 'o', 'r', 'e'] s <;>
      · right; left
        simp [subjOutcome, inJson, hcb]
  · cases hcb : l.any (fun e => jsonEqPy (.str ['s', 'c', 'o', 'r', 'e']) e) <;>
      · right; left
        simp [subjOutcome, inJson, hcb]
  · cases hcb : kvs.any (fun p => p.1 = (['s', 'c', 'o', 'r', 'e'] : List Char))
    · left
      simp [subjOutcome, inJson, hcb]
    · rcases hsv : assocGet kvs (['s', 'c', 'o', 'r', 'e'] : List Char) with _ | sv
      · left
        simp [subjOutcome, inJson, hcb, hsv]
      · refine .inr (.inr ⟨kvs, sv, rfl, hsv, ?_⟩)
        simp [subjOutcome, inJson, hcb, hsv]

theorem subjLoop_scores_prov (subjO : List Char → Option (List Char)) :
    ∀ (L : List (List Char))
      (st : List (List Char × Json) × List (List Char × Json)),
      (∀ k v, assocGet st.2 k = some v → scoreProvenance subjO k v) →
      ∀ k v, assocGet (subjLoop subjO L st).2 k = some v →
        scoreProvenance subjO k v
  | [], st, hinv => hinv
  | dk :: rest, (am, sc), hinv => by
    intro k v hget
    rw [subjLoop_cons] at hget
    rcases hsupd : (subjOutcome (callAiModel (subjO dk))).2 with _ | v0
    · simp only [hsupd] at hget
      exact subjLoop_scores_prov subjO rest
        (objInsert am dk (subjOutcome (callAiModel (subjO dk))).1, sc)
        hinv k v hget
    · simp only [hsupd] at hget
      refine subjLoop_scores_prov subjO rest _ ?_ k v hget
      intro k2 v2 hget2
      rcases assocGet_assocSet_cases _ _ _ _ _ hget2 with ⟨rfl, rfl⟩ | hold
      · rcases subjOutcome_snd_spec (callAiModel (subjO k2)) with
          hbad | h2 | ⟨kvs, sv, hc, hsv, hv⟩
        · rw [hsupd] at hbad
          cases hbad
        · rw [hsupd] at h2
          exact .inr (.inl (Option.some_inj.mp h2))
        · rw [hsupd] at hv
          exact .inr (.inr ⟨kvs, hc, by rw [hsv, Option.some_inj.mp hv]⟩)
      · exact hinv k2 v2 hold

theorem assocGet_map_zero (l : List (List Char)) (k : List Char) (v : Json)
    (h : assocGet (l.map fun d => (d, Json.num 0)) k = some v) :
    v = Json.num 0 := by
  induction l with
  | nil => cases h
  | cons d rest ih =>
    simp only [List.map, assocGet] at h
    split at h
    · exact (Option.some_inj.mp h).symm
    · exact ih h

/-- C4 amended: in every successful response, each stored subjective
score is the untouched default 0, the fallback 2, or exactly the `score`
member of the record the service returned for that dimension — the
extracted value is passed through uncorrected, so nothing confines it to
`[0, 4]`. -/
theorem claim4_amended_passthrough
    (subjO : List Char → Option (List Char)) (reportO : Option (List Char))
    (req : Request) (ts : Nat) (log : List LogEntry)
    (h200 : (analyzeData subjO reportO req ts log).1.code = 200)
    (data : Json)
    (hdata : (analyzeData subjO reportO req ts log).1.data = some data)
    (sj : List (List Char × Json))
    (hsj : jGet data ("subjective_scores".toList) = some (.obj sj))
    (d : List Char) (v : Json) (hv : assocGet sj d = some v) :
    v = .num 0 ∨ v = .num 2 ∨
      ∃ kvs, callAiModel (subjO d) = some (.obj kvs) ∧
        assocGet kvs ("score".toList) = some v := by
  obtain ⟨result, am, hp, hz, hd, hl⟩ :=
    analyzeData_200_destruct _ _ _ _ _ h200
  rw [hdata] at hd
  obtain rfl : data = result := Option.some_inj.mp hd
  obtain ⟨objS, subjS, totals, rv, hobj, hsubj, htot, hcall, hasm⟩ :=
    pipeline_ok_destruct _ _ _ _ _ hp
  obtain ⟨hO, hS, hD, hM, hA⟩ := assembleReport_fields _ _ _ _ _ _ hasm
  rw [hS] at hsj
  have hsjeq : Json.obj sj = Json.obj subjS := Option.some_inj.mp hsj.symm
  injection hsjeq with hsjeq2
  rw [hsjeq2] at hv
  unfold subjStage at hsubj
  split at hsubj
  · simp only [Except.ok.injEq, Prod.mk.injEq] at hsubj
    rw [← hsubj.2] at hv
    exact .inl (assocGet_map_zero dims5 d v hv)
  · rcases hg : groupByDim (subjPairsOf req) initGroups with e | g
    · rw [hg] at hsubj
      cases hsubj
    · rw [hg] at hsubj
      simp only [Except.map, Except.ok.injEq] at hsubj
      have hsnd := congrArg Prod.snd hsubj
      simp only at hsnd
      rw [← hsnd] at hv
      exact subjLoop_scores_prov subjO _ _
        (fun k2 v2 hg2 => .inl (assocGet_map_zero dims5 k2 v2 hg2)) d v hv

/-- The response data of the out-of-range-score run. -/
def c4Data : Json :=
  .obj [("objective_scores".toList, zeroScoresJson),
    ("subjective_scores".toList, .obj [("R".toList, .num 7),
      ("E".toList, .num 0), ("A".toList, .num 0), ("D".toList, .num 0),
      ("Y".toList, .num 0)]),
    ("dimension_scores".toList, .obj [("R".toList, .num 7),
      ("E".toList, .num 0), ("A".toList, .num 0), ("D".toList, .num 0),
      ("Y".toList, .num 0)]),
    ("subjective_analysis".toList, .obj [("R".toList,
      .obj [("score".toList, .num 7)])])]

/-- C4 witness: the stored score 7 is exactly the service's `score`. -/
theorem claim4_witness :
    Json.num 7 = .num 0 ∨ Json.num 7 = .num 2 ∨
      ∃ kvs, callAiModel (score7Oracle ("R".toList)) = some (.obj kvs) ∧
        assocGet kvs ("score".toList) = some (.num 7) :=
  claim4_amended_passthrough score7Oracle emptyReport subjOnlyReq 7 [] rfl
    c4Data rfl
    [("R".toList, .num 7), ("E".toList, .num 0), ("A".toList, .num 0),
      ("D".toList, .num 0), ("Y".toList, .num 0)] rfl
    ("R".toList) (.num 7) rfl

/-- How one entry of a per-dimension map may change when only the calls
for dimension `d` change outcome: same key, same value off `d`, and at
`d` either the same value or the fixed replacement `fb`. -/
def offDim (d : List Char) (fb : Json) (p q : List Char × Json) : Prop :=
  p.1 = q.1 ∧ (p.1 ≠ d → q.2 = p.2) ∧ (p.1 = d → q.2 = p.2 ∨ q.2 = fb)

theorem offDim_refl (d : List Char) (fb : Json) (p : List Char × Json) :
    offDim d fb p p :=
  ⟨rfl, fun _ => rfl, fun _ => .inl rfl⟩

theorem objInsert_forall2_same (d : List Char) (fb : Json) (k : List Char)
    (v : Json) :
    ∀ {x y : List (List Char × Json)}, List.Forall₂ (offDim d fb) x y →
      List.Forall₂ (offDim d fb) (objInsert x k v) (objInsert y k v)
  | [], [], _ => by
    simp only [objInsert]
    exact .cons (offDim_refl d fb (k, v)) .nil
  | ⟨pk, pv⟩ :: x, ⟨qk, qv⟩ :: y, .cons hpq h => by
    obtain ⟨hk1, hne, hd⟩ := hpq
    simp only at hk1 hne hd
    subst hk1
    simp only [objInsert]
    split
    · exact .cons (offDim_refl d fb (k, v)) h
    · exact .cons ⟨rfl, hne, hd⟩ (objInsert_forall2_same d fb k v h)

theorem objInsert_forall2_dim (d : List Char) (fb : Json) (v1 : Json) :
    ∀ {x y : List (List Char × Json)}, List.Forall₂ (offDim d fb) x y →
      List.Forall₂ (offDim d fb) (objInsert x d v1) (objInsert y d fb)
  | [], [], _ => by
    simp only [objInsert]
    exact .cons ⟨rfl, fun hc => absurd rfl hc, fun _ => .inr rfl⟩ .nil
  | ⟨pk, pv⟩ :: x, ⟨qk, qv⟩ :: y, .cons hpq h => by
    obtain ⟨hk1, hne, hd⟩ := hpq
    simp only at hk1 hne hd
    subst hk1
    simp only [objInsert]
    split
    · exact .cons ⟨rfl, fun hc => absurd rfl hc, fun _ => .inr rfl⟩ h
    · exact .cons ⟨rfl, hne, hd⟩ (objInsert_forall2_dim d fb v1 h)

theorem assocSet_forall2_same (d : List Char) (fb : Json) (k : List Char)
    (v : Json) :
    ∀ {x y : List (List Char × Json)}, List.Forall₂ (offDim d fb) x y →
      List.Forall₂ (offDim d fb) (assocSet x k v) (assocSet y k v)
  | [], [], _ => .nil
  | ⟨pk, pv⟩ :: x, ⟨qk, qv⟩ :: y, .cons hpq h => by
    obtain ⟨hk1, hne, hd⟩ := hpq
    simp only at hk1 hne hd
    subst hk1
    simp only [assocSet]
    split
    · exact .cons (offDim_refl d fb (k, v)) h
    · exact .cons ⟨rfl, hne, hd⟩ (assocSet_forall2_same d fb k v h)

theorem assocSet_forall2_dim_right (d : List Char) (fb : Json) :
    ∀ {x y : List (List Char × Json)}, List.Forall₂ (offDim d fb) x y →
      List.Forall₂ (offDim d fb) x (assocSet y d fb)
  | [], [], _ => .nil
  | ⟨pk, pv⟩ :: x, ⟨qk, qv⟩ :: y, .cons hpq h => by
    obtain ⟨hk1, hne, hd⟩ := hpq
    simp only at hk1 hne hd
    subst hk1
    simp only [assocSet]
    split
    · rename_i hpk
      exact .cons ⟨hpk, fun hc => absurd hpk hc, fun _ => .inr rfl⟩ h
    · exact .cons ⟨rfl, hne, hd⟩ (assocSet_forall2_dim_right d fb h)

theorem assocSet_forall2_dim_both (d : List Char) (fb : Json) (v1 : Json) :
    ∀ {x y : List (List Char × Json)}, List.Forall₂ (offDim d fb) x y →
      List.Forall₂ (offDim d fb) (assocSet x d v1) (assocSet y d fb)
  | [], [], _ => .nil
  | ⟨pk, pv⟩ :: x, ⟨qk, qv⟩ :: y, .cons hpq h => by
    obtain ⟨hk1, hne, hd⟩ := hpq
    simp only at hk1 hne hd
    subst hk1
    simp only [assocSet]
    split
    · exact .cons ⟨rfl, fun hc => absurd rfl hc, fun _ => .inr rfl⟩ h
    · exact .cons ⟨rfl, hne, hd⟩ (assocSet_forall2_dim_both d fb v1 h)

theorem forall2_get_ne (d : List Char) (fb : Json) :
    ∀ {x y : List (List Char × Json)}, List.Forall₂ (offDim d fb) x y →
      ∀ k, k ≠ d → assocGet y k = assocGet x k
  | [], [], _ => fun _ _ => rfl
  | ⟨pk, pv⟩ :: x, ⟨qk, qv⟩ :: y, .cons hpq h => by
    intro k hk
    obtain ⟨hk1, hne, hd⟩ := hpq
    simp only at hk1 hne hd
    subst hk1
    simp only [assocGet]
    split
    · rename_i hpk
      rw [hne (fun he => hk (he ▸ hpk ▸ rfl))]
    · exact forall2_get_ne d fb h k hk

theorem subjLoop_offdim (subjO1 subjO2 : List Char → Option (List Char))
    (d : List Char) (hfail : callAiModel (subjO2 d) = none)
    (hagree : ∀ d2, d2 ≠ d → subjO2 d2 = subjO1 d2) :
    ∀ (L : List (List Char)) {am1 sc1 am2 sc2 : List (List Char × Json)},
      List.Forall₂ (offDim d fallbackRecord) am1 am2 →
      List.Forall₂ (offDim d (.num 2)) sc1 sc2 →
      List.Forall₂ (offDim d fallbackRecord)
        (subjLoop subjO1 L (am1, sc1)).1 (subjLoop subjO2 L (am2, sc2)).1 ∧
      List.Forall₂ (offDim d (.num 2))
        (subjLoop subjO1 L (am1, sc1)).2 (subjLoop subjO2 L (am2, sc2)).2
  | [], _, _, _, _, h1, h2 => ⟨h1, h2⟩
  | dk :: rest, am1, sc1, am2, sc2, h1, h2 => by
    rw [subjLoop_cons, subjLoop_cons]
    by_cases hdk : dk = d
    · subst hdk
      have ho2 : subjOutcome (callAiModel (subjO2 dk)) =
          (fallbackRecord, some (.num 2)) := by rw [hfail]; rfl
      rw [ho2]
      dsimp only
      refine subjLoop_offdim subjO1 subjO2 dk hfail hagree rest ?_ ?_
      · exact objInsert_forall2_dim dk fallbackRecord _ h1
      · rcases hs1 : (subjOutcome (callAiModel (subjO1 dk))).2 with _ | v0
        · exact assocSet_forall2_dim_right dk _ h2
        · exact assocSet_forall2_dim_both dk _ v0 h2
    · rw [hagree dk hdk]
      refine subjLoop_offdim subjO1 subjO2 d hfail hagree rest ?_ ?_
      · exact objInsert_forall2_same d _ dk _ h1
      · rcases hs : (subjOutcome (callAiModel (subjO1 dk))).2 with _ | v0 <;>
          simp only [hs]
        · exact h2
        · exact assocSet_forall2_same d _ dk v0 h2

theorem subjLoop_notin (subjO : List Char → Option (List Char))
    (d : List Char) :
    ∀ (L : List (List Char)) (am sc : List (List Char × Json)), d ∉ L →
      assocGet (subjLoop subjO L (am, sc)).1 d = assocGet am d ∧
      assocGet (subjLoop subjO L (am, sc)).2 d = assocGet sc d
  | [], am, sc, _ => ⟨rfl, rfl⟩
  | dk :: rest, am, sc, hmem => by
    have hdk : dk ≠ d := fun he => hmem (he ▸ List.mem_cons_self dk rest)
    have hrest : d ∉ rest := fun hm => hmem (List.mem_cons_of_mem dk hm)
    rw [subjLoop_cons]
    rcases hs : (subjOutcome (callAiModel (subjO dk))).2 with _ | v0 <;>
      simp only [hs]
    · obtain ⟨ha, hsc⟩ := subjLoop_notin subjO d rest _ _ hrest
      exact ⟨ha.trans (assocGet_objInsert_ne _ _ _ _ (Ne.symm hdk)), hsc⟩
    · obtain ⟨ha, hsc⟩ := subjLoop_notin subjO d rest _ _ hrest
      exact ⟨ha.trans (assocGet_objInsert_ne _ _ _ _ (Ne.symm hdk)),
        hsc.trans (assocGet_assocSet_ne _ _ _ _ (Ne.symm hdk))⟩

theorem subjLoop_fail_at (subjO2 : List Char → Option (List Char))
    (d : List Char) (hfail : callAiModel (subjO2 d) = none) :
    ∀ (L : List (List Char)) (am sc : List (List Char × Json)),
      L.Nodup → d ∈ L → (assocGet sc d).isSome →
      assocGet (subjLoop subjO2 L (am, sc)).1 d = some fallbackRecord ∧
      assocGet (subjLoop subjO2 L (am, sc)).2 d = some (.num 2)
  | [], am, sc, _, hmem, _ => absurd hmem (List.not_mem_nil d)
  | dk :: rest, am, sc, hnd, hmem, hsome => by
    by_cases hdk : dk = d
    · subst hdk
      have hrest : dk ∉ rest := (List.nodup_cons.mp hnd).1
      rw [subjLoop_cons]
      have ho2 : subjOutcome (callAiModel (subjO2 dk)) =
          (fallbackRecord, some (.num 2)) := by rw [hfail]; rfl
      rw [ho2]
      dsimp only
      obtain ⟨ha, hsc⟩ := subjLoop_notin subjO2 dk rest _ _ hrest
      refine ⟨ha.trans (assocGet_objInsert_self _ _ _), hsc.trans ?_⟩
      exact assocGet_assocSet_isSome _ _ _ hsome
    · have hrest : d ∈ rest := by
        rcases List.mem_cons.mp hmem with he | hm
        · exact absurd he.symm hdk
        · exact hm
      rw [subjLoop_cons]
      rcases hs : (subjOutcome (callAiModel (subjO2 dk))).2 with _ | v0 <;>
        simp only [hs]
      · exact subjLoop_fail_at subjO2 d hfail rest _ _
          (List.nodup_cons.mp hnd).2 hrest hsome
      · refine subjLoop_fail_at subjO2 d hfail rest _ _
          (List.nodup_cons.mp hnd).2 hrest ?_
        rw [assocGet_assocSet_ne _ _ _ _ (Ne.symm hdk)]
        exact hsome

theorem forall2_hazard (d : List Char) :
    ∀ {x y : List (List Char × Json)},
      List.Forall₂ (offDim d fallbackRecord) x y →
      renderHazard x = false → renderHazard y = false
  | [], [], _ => fun _ => rfl
  | ⟨pk, pv⟩ :: x, ⟨qk, qv⟩ :: y, .cons hpq h => by
    intro hx
    obtain ⟨hk1, hne, hd⟩ := hpq
    simp only [renderHazard, List.any_cons, Bool.or_eq_false_iff] at hx ⊢
    refine ⟨?_, forall2_hazard d h hx.2⟩
    have hqv : qv = pv ∨ qv = fallbackRecord := by
      by_cases hpd : pk = d
      · exact hd hpd
      · exact .inl (hne hpd)
    rcases hqv with rfl | rfl
    · exact hx.1
    · decide

theorem forall2_get_cases (d : List Char) (fb : Json) :
    ∀ {x y : List (List Char × Json)},
      List.Forall₂ (offDim d fb) x y →
      ∀ k v, assocGet y k = some v →
        ∃ v1, assocGet x k = some v1 ∧ (v = v1 ∨ (k = d ∧ v = fb))
  | [], [], _ => fun _ _ h => by cases h
  | ⟨pk, pv⟩ :: x, ⟨qk, qv⟩ :: y, .cons hpq h => by
    intro k v hget
    obtain ⟨hk1, hne, hd⟩ := hpq
    simp only at hk1 hne hd
    subst hk1
    simp only [assocGet] at hget ⊢
    split at hget
    · rename_i hpk
      rw [if_pos hpk]
      refine ⟨pv, rfl, ?_⟩
      obtain rfl : qv = v := Option.some_inj.mp hget
      by_cases hpd : pk = d
      · rcases hd hpd with rfl | rfl
        · exact .inl rfl
        · exact .inr ⟨hpk ▸ hpd, rfl⟩
      · exact .inl (hne hpd)
    · rename_i hpk
      rw [if_neg hpk]
      exact forall2_get_cases d fb h k v hget

theorem groupFold_keys (resp : SubjResp) :
    ∀ (ds : List (List Char)) (g : List (List Char × List SubjResp)),
      ((ds.foldl (fun g d =>
        match assocGet g d with
        | some cur => assocSet g d (cur ++ [resp])
        | none => g) g).map Prod.fst) = g.map Prod.fst
  | [], g => rfl
  | d :: rest, g => by
    simp only [List.foldl_cons]
    rcases hg : assocGet g d with _ | cur <;> simp only [hg]
    · exact groupFold_keys resp rest g
    · exact (groupFold_keys resp rest _).trans (assocSet_keys _ _ _)

theorem groupByDim_keys :
    ∀ (pairs : List QAPair) (groups g : List (List Char × List SubjResp)),
      groupByDim pairs groups = .ok g → g.map Prod.fst = groups.map Prod.fst
  | [], groups, g, h => by
    simp only [groupByDim] at h
    cases h
    rfl
  | qa :: rest, groups, g, h => by
    simp only [groupByDim] at h
    split at h
    · cases h
    · exact (groupByDim_keys rest _ g h).trans (groupFold_keys _ _ _)

theorem assocGet_isSome_iff_mem {α : Type} :
    ∀ (l : List (List Char × α)) (k : List Char),
      (assocGet l k).isSome ↔ k ∈ l.map Prod.fst
  | [], k => by simp [assocGet]
  | (k0, v0) :: rest, k => by
    by_cases hk : k0 = k
    · simp only [assocGet, if_pos hk, Option.isSome_some, List.map,
        List.mem_cons, true_iff]
      exact .inl hk.symm
    · simp only [assocGet, if_neg hk, List.map, List.mem_cons]
      rw [assocGet_isSome_iff_mem rest k]
      constructor
      · exact fun h => .inr h
      · intro h
        rcases h with he | hm
        · exact absurd he.symm hk
        · exact hm

theorem dims5_nodup : dims5.Nodup := by decide

theorem dimsWithData_sublist (g : List (List Char × List SubjResp)) :
    (dimsWithData g).Sublist (g.map Prod.fst) := by
  unfold dimsWithData
  exact (List.filter_sublist g).map Prod.fst

theorem dimsWithData_nodup (g : List (List Char × List SubjResp))
    (hk : g.map Prod.fst = dims5) : (dimsWithData g).Nodup := by
  have h := dimsWithData_sublist g
  rw [hk] at h
  exact h.nodup dims5_nodup

theorem reconcileDims_ok_transfer (t1 t2 : List (List Char × Int))
    (hkeys : ∀ k, (assocGet t2 k).isSome ↔ (assocGet t1 k).isSome) :
    ∀ (dims x : List (List Char × Json)),
      reconcileDims t1 dims = .ok x →
      ∃ y, reconcileDims t2 dims = .ok y
  | [], x, _ => ⟨[], rfl⟩
  | (k, det) :: rest, x, h => by
    simp only [reconcileDims] at h ⊢
    split at h
    · rename_i hk1
      have hk2 : assocGet t2 k = none := by
        rcases h2 : assocGet t2 k with _ | m
        · rfl
        · have := (hkeys k).mp (by simp [h2])
          rw [hk1] at this
          cases this
      rw [hk2]
      rcases hr : reconcileDims t1 rest with e | rest2
      · rw [hr] at h
        cases h
      · obtain ⟨y, hy⟩ := reconcileDims_ok_transfer t1 t2 hkeys rest rest2 hr
        rw [hy]
        exact ⟨(k, det) :: y, rfl⟩
    · rename_i n hk1
      have hk2 : ∃ m, assocGet t2 k = some m :=
        Option.isSome_iff_exists.mp ((hkeys k).mpr (by simp [hk1]))
      obtain ⟨m, hm⟩ := hk2
      rw [hm]
      split at h
      · rename_i dkvs
        rcases hr : reconcileDims t1 rest with e | rest2
        · rw [hr] at h
          cases h
        · obtain ⟨y, hy⟩ := reconcileDims_ok_transfer t1 t2 hkeys rest rest2 hr
          rw [hy]
          exact ⟨_, rfl⟩
      · cases h

theorem computeTotals_lit_iff (a1 a2 a3 a4 a5 : Int) (s1 s2 s3 s4 s5 : Json)
    (t : List (List Char × Int)) :
    computeTotals
      [("R".toList, a1), ("E".toList, a2), ("A".toList, a3),
        ("D".toList, a4), ("Y".toList, a5)]
      [("R".toList, s1), ("E".toList, s2), ("A".toList, s3),
        ("D".toList, s4), ("Y".toList, s5)] = .ok t ↔
    ∃ b1 b2 b3 b4 b5, addable s1 = some b1 ∧ addable s2 = some b2 ∧
      addable s3 = some b3 ∧ addable s4 = some b4 ∧ addable s5 = some b5 ∧
      t = [("R".toList, a1 + b1), ("E".toList, a2 + b2),
        ("A".toList, a3 + b3), ("D".toList, a4 + b4),
        ("Y".toList, a5 + b5)] := by
  constructor
  · intro h
    simp only [computeTotals, computeTotals.go, dims5, Option.some_bind,
    show assocGet [("R".toList, a1), ("E".toList, a2), ("A".toList, a3),
      ("D".toList, a4), ("Y".toList, a5)] ("R".toList) = some a1 from rfl,
    show assocGet [("R".toList, a1), ("E".toList, a2), ("A".toList, a3),
      ("D".toList, a4), ("Y".toList, a5)] ("E".toList) = some a2 from rfl,
    show assocGet [("R".toList, a1), ("E".toList, a2), ("A".toList, a3),
      ("D".toList, a4), ("Y".toList, a5)] ("A".toList) = some a3 from rfl,
    show assocGet [("R".toList, a1), ("E".toList, a2), ("A".toList, a3),
      ("D".toList, a4), ("Y".toList, a5)] ("D".toList) = some a4 from rfl,
    show assocGet [("R".toList, a1), ("E".toList, a2), ("A".toList, a3),
      ("D".toList, a4), ("Y".toList, a5)] ("Y".toList) = some a5 from rfl,
    show assocGet [("R".toList, s1), ("E".toList, s2), ("A".toList, s3),
      ("D".toList, s4), ("Y".toList, s5)] ("R".toList) = some s1 from rfl,
    show assocGet [("R".toList, s1), ("E".toList, s2), ("A".toList, s3),
      ("D".toList, s4), ("Y".toList, s5)] ("E".toList) = some s2 from rfl,
    show assocGet [("R".toList, s1), ("E".toList, s2), ("A".toList, s3),
      ("D".toList, s4), ("Y".toList, s5)] ("A".toList) = some s3 from rfl,
    show assocGet [("R".toList, s1), ("E".toList, s2), ("A".toList, s3),
      ("D".toList, s4), ("Y".toList, s5)] ("D".toList) = some s4 from rfl,
    show assocGet [("R".toList, s1), ("E".toList, s2), ("A".toList, s3),
      ("D".toList, s4), ("Y".toList, s5)] ("Y".toList) = some s5 from rfl] at h
    rcases hb1 : addable s1 with _ | b1 <;> simp only [hb1] at h
    · cases h
    rcases hb2 : addable s2 with _ | b2 <;> simp only [hb2] at h
    · cases h
    rcases hb3 : addable s3 with _ | b3 <;> simp only [hb3] at h
    · cases h
    rcases hb4 : addable s4 with _ | b4 <;> simp only [hb4] at h
    · cases h
    rcases hb5 : addable s5 with _ | b5 <;> simp only [hb5] at h
    · cases h
    simp only [Except.map, Except.ok.injEq] at h
    exact ⟨b1, b2, b3, b4, b5, rfl, rfl, rfl, rfl, rfl, h.symm⟩
  · rintro ⟨b1, b2, b3, b4, b5, hb1, hb2, hb3, hb4, hb5, rfl⟩
    simp only [computeTotals, computeTotals.go, dims5, Option.some_bind,
    show assocGet [("R".toList, a1), ("E".toList, a2), ("A".toList, a3),
      ("D".toList, a4), ("Y".toList, a5)] ("R".toList) = some a1 from rfl,
    show assocGet [("R".toList, a1), ("E".toList, a2), ("A".toList, a3),
      ("D".toList, a4), ("Y".toList, a5)] ("E".toList) = some a2 from rfl,
    show assocGet [("R".toList, a1), ("E".toList, a2), ("A".toList, a3),
      ("D".toList, a4), ("Y".toList, a5)] ("A".toList) = some a3 from rfl,
    show assocGet [("R".toList, a1), ("E".toList, a2), ("A".toList, a3),
      ("D".toList, a4), ("Y".toList, a5)] ("D".toList) = some a4 from rfl,
    show assocGet [("R".toList, a1), ("E".toList, a2), ("A".toList, a3),
      ("D".toList, a4), ("Y".toList, a5)] ("Y".toList) = some a5 from rfl,
    show assocGet [("R".toList, s1), ("E".toList, s2), ("A".toList, s3),
      ("D".toList, s4), ("Y".toList, s5)] ("R".toList) = some s1 from rfl,
    show assocGet [("R".toList, s1), ("E".toList, s2), ("A".toList, s3),
      ("D".toList, s4), ("Y".toList, s5)] ("E".toList) = some s2 from rfl,
    show assocGet [("R".toList, s1), ("E".toList, s2), ("A".toList, s3),
      ("D".toList, s4), ("Y".toList, s5)] ("A".toList) = some s3 from rfl,
    show assocGet [("R".toList, s1), ("E".toList, s2), ("A".toList, s3),
      ("D".toList, s4), ("Y".toList, s5)] ("D".toList) = some s4 from rfl,
    show assocGet [("R".toList, s1), ("E".toList, s2), ("A".toList, s3),
      ("D".toList, s4), ("Y".toList, s5)] ("Y".toList) = some s5 from rfl]
    simp only [hb1, hb2, hb3, hb4, hb5, Except.map]

theorem computeTotals_ok_of_addable (objS : List (List Char × Int))
    (hko : objS.map Prod.fst = dims5) (s : List (List Char × Json))
    (hks : s.map Prod.fst = dims5)
    (hadd : ∀ k v, assocGet s k = some v → (addable v).isSome) :
    ∃ t, computeTotals objS s = .ok t ∧ t.map Prod.fst = dims5 := by
  obtain ⟨a1, a2, a3, a4, a5, rfl⟩ := map_fst_dims5_destruct objS hko
  obtain ⟨s1, s2, s3, s4, s5, rfl⟩ := map_fst_dims5_destruct s hks
  obtain ⟨b1, hb1⟩ :=
    Option.isSome_iff_exists.mp (hadd ("R".toList) s1 rfl)
  obtain ⟨b2, hb2⟩ :=
    Option.isSome_iff_exists.mp (hadd ("E".toList) s2 rfl)
  obtain ⟨b3, hb3⟩ :=
    Option.isSome_iff_exists.mp (hadd ("A".toList) s3 rfl)
  obtain ⟨b4, hb4⟩ :=
    Option.isSome_iff_exists.mp (hadd ("D".toList) s4 rfl)
  obtain ⟨b5, hb5⟩ :=
    Option.isSome_iff_exists.mp (hadd ("Y".toList) s5 rfl)
  exact ⟨_, (computeTotals_lit_iff a1 a2 a3 a4 a5 s1 s2 s3 s4 s5 _).mpr
    ⟨b1, b2, b3, b4, b5, hb1, hb2, hb3, hb4, hb5, rfl⟩, rfl⟩

theorem computeTotals_ok_addables (objS : List (List Char × Int))
    (s : List (List Char × Json)) (t : List (List Char × Int))
    (hko : objS.map Prod.fst = dims5) (hks : s.map Prod.fst = dims5)
    (h : computeTotals objS s = .ok t) :
    ∀ k v, assocGet s k = some v → (addable v).isSome := by
  obtain ⟨a1, a2, a3, a4, a5, rfl⟩ := map_fst_dims5_destruct objS hko
  obtain ⟨s1, s2, s3, s4, s5, rfl⟩ := map_fst_dims5_destruct s hks
  obtain ⟨b1, b2, b3, b4, b5, hb1, hb2, hb3, hb4, hb5, rfl⟩ :=
    (computeTotals_lit_iff a1 a2 a3 a4 a5 s1 s2 s3 s4 s5 _).mp h
  intro k v hget
  simp only [assocGet] at hget
  split at hget
  · rw [(Option.some_inj.mp hget).symm, hb1]; rfl
  split at hget
  · rw [(Option.some_inj.mp hget).symm, hb2]; rfl
  split at hget
  · rw [(Option.some_inj.mp hget).symm, hb3]; rfl
  split at hget
  · rw [(Option.some_inj.mp hget).symm, hb4]; rfl
  split at hget
  · rw [(Option.some_inj.mp hget).symm, hb5]; rfl
  · cases hget

theorem assembleReport_ok_transfer (v : Json) (objS t1 t2 : List (List Char × Int))
    (s1 s2 am1 am2 : List (List Char × Json)) (result1 : Json)
    (h1 : assembleReport v objS s1 t1 am1 = .ok result1)
    (hkeys : ∀ k, (assocGet t2 k).isSome ↔ (assocGet t1 k).isSome) :
    ∃ result2, assembleReport v objS s2 t2 am2 = .ok result2 := by
  have nOM : "dimensions".toList ≠ "objective_scores".toList := by decide
  have nSM : "dimensions".toList ≠ "subjective_scores".toList := by decide
  have nDM : "dimensions".toList ≠ "dimension_scores".toList := by decide
  unfold assembleReport at h1 ⊢
  split at h1
  case h_2 => cases h1
  rename_i kvs
  dsimp only at h1 ⊢
  rw [assocGet_objInsert_ne _ _ _ _ nDM, assocGet_objInsert_ne _ _ _ _ nSM,
    assocGet_objInsert_ne _ _ _ _ nOM] at h1 ⊢
  rcases hkd : assocGet kvs ("dimensions".toList) with _ | dv
  · exact ⟨_, rfl⟩
  · rw [hkd] at h1
    rcases dv with _ | _ | _ | _ | _ | dims
    case obj =>
      dsimp only at h1 ⊢
      rcases hr : reconcileDims t1 dims with e | dims2 <;> rw [hr] at h1
      · cases h1
      · obtain ⟨y, hy⟩ := reconcileDims_ok_transfer t1 t2 hkeys dims dims2 hr
        rw [hy]
        exact ⟨_, rfl⟩
    all_goals dsimp only at h1
    all_goals cases h1

theorem forall2_offdim_refl (d : List Char) (fb : Json) :
    ∀ (l : List (List Char × Json)), List.Forall₂ (offDim d fb) l l
  | [] => .nil
  | p :: rest => .cons (offDim_refl d fb p) (forall2_offdim_refl d fb rest)

theorem computeTotals_keys (objS : List (List Char × Int))
    (s : List (List Char × Json)) (t : List (List Char × Int))
    (hko : objS.map Prod.fst = dims5) (hks : s.map Prod.fst = dims5)
    (h : computeTotals objS s = .ok t) : t.map Prod.fst = dims5 := by
  obtain ⟨a1, a2, a3, a4, a5, rfl⟩ := map_fst_dims5_destruct objS hko
  obtain ⟨u1, u2, u3, u4, u5, rfl⟩ := map_fst_dims5_destruct s hks
  obtain ⟨b1, b2, b3, b4, b5, _, _, _, _, _, rfl⟩ :=
    (computeTotals_lit_iff a1 a2 a3 a4 a5 u1 u2 u3 u4 u5 t).mp h
  rfl

/-- C3: when the scoring call for one populated subjective dimension `d`
fails — `callAiModel (subjO2 d) = none`, i.e. a transport error or
timeout (`subjO2 d = none`) or an extraction failure on a completion the
extractor cannot parse (`subjO2 d = some garbage`) — while every other
dimension's call outcome is unchanged, the request still succeeds: the
new response stores the fallback record
`{analysis, score: 2, key_traits: []}` under `subjective_analysis[d]` and
the score `2` under `subjective_scores[d]`, and every other dimension's
stored analysis record and subjective score are exactly those of the
unchanged run. -/
theorem claim3_fallback_isolation
    (subjO1 subjO2 : List Char → Option (List Char)) (d : List Char)
    (hfail : callAiModel (subjO2 d) = none)
    (hagree : ∀ d2, d2 ≠ d → subjO2 d2 = subjO1 d2)
    (reportO : Option (List Char)) (req : Request) (ts : Nat)
    (log : List LogEntry)
    (h200 : (analyzeData subjO1 reportO req ts log).1.code = 200)
    (data1 : Json)
    (hdata1 : (analyzeData subjO1 reportO req ts log).1.data = some data1)
    (am1 s1 : List (List Char × Json))
    (ham1 : jGet data1 ("subjective_analysis".toList) = some (.obj am1))
    (hs1 : jGet data1 ("subjective_scores".toList) = some (.obj s1))
    (hdproc : (assocGet am1 d).isSome) :
    ∃ data2 am2 s2,
      (analyzeData subjO2 reportO req ts log).1.code = 200 ∧
      (analyzeData subjO2 reportO req ts log).1.data = some data2 ∧
      jGet data2 ("subjective_analysis".toList) = some (.obj am2) ∧
      jGet data2 ("subjective_scores".toList) = some (.obj s2) ∧
      assocGet am2 d = some fallbackRecord ∧
      assocGet s2 d = some (.num 2) ∧
      (∀ k, k ≠ d → assocGet am2 k = assocGet am1 k) ∧
      (∀ k, k ≠ d → assocGet s2 k = assocGet s1 k) := by
  obtain ⟨result1, amP, hp1, hz1, hd1, _⟩ :=
    analyzeData_200_destruct subjO1 reportO req ts log h200
  rw [hdata1] at hd1
  obtain rfl : data1 = result1 := Option.some_inj.mp hd1
  obtain ⟨objS, subjS1, totals1, v, hobj, hsubj1, htot1, hcall, hasm1⟩ :=
    pipeline_ok_destruct subjO1 reportO req data1 amP hp1
  obtain ⟨_, hS1, _, _, hA1⟩ :=
    assembleReport_fields v objS totals1 subjS1 amP data1 hasm1
  have heqa : amP = am1 := by simpa using hA1.symm.trans ham1
  have heqs : subjS1 = s1 := by simpa using hS1.symm.trans hs1
  rw [← heqa] at hdproc
  unfold subjStage at hsubj1
  split at hsubj1
  · injection hsubj1 with hpair
    have h1 := congrArg Prod.fst hpair
    dsimp only at h1
    rw [← h1] at hdproc
    simp [assocGet] at hdproc
  · rename_i hnemp
    rcases hg : groupByDim (subjPairsOf req) initGroups with e | g
    · rw [hg] at hsubj1
      simp only [Except.map] at hsubj1
      cases hsubj1
    · rw [hg] at hsubj1
      simp only [Except.map] at hsubj1
      injection hsubj1 with hpair
      have hgk : g.map Prod.fst = dims5 :=
        (groupByDim_keys (subjPairsOf req) initGroups g hg).trans
          (show initGroups.map Prod.fst = dims5 from rfl)
      have hnd : (dimsWithData g).Nodup := dimsWithData_nodup g hgk
      have hmemL : d ∈ dimsWithData g := by
        by_contra hmem
        obtain ⟨ha, _⟩ :=
          subjLoop_notin subjO1 d (dimsWithData g) [] initScoresJson hmem
        rw [hpair] at ha
        dsimp only at ha
        rw [ha] at hdproc
        simp [assocGet] at hdproc
      have hdin5 : d ∈ dims5 := hgk ▸ (dimsWithData_sublist g).subset hmemL
      have hinit : (assocGet initScoresJson d).isSome := by
        rw [assocGet_isSome_iff_mem, initScoresJson_keys]
        exact hdin5
      rcases hl2 : subjLoop subjO2 (dimsWithData g) ([], initScoresJson)
        with ⟨am2, s2⟩
      obtain ⟨f2a, f2s⟩ := subjLoop_offdim subjO1 subjO2 d hfail hagree
        (dimsWithData g) (List.Forall₂.nil)
        (forall2_offdim_refl d (.num 2) initScoresJson)
      rw [hpair, hl2] at f2a f2s
      dsimp only at f2a f2s
      obtain ⟨hfa, hfs⟩ := subjLoop_fail_at subjO2 d hfail
        (dimsWithData g) [] initScoresJson hnd hmemL hinit
      rw [hl2] at hfa hfs
      dsimp only at hfa hfs
      have hsubj2 : subjStage subjO2 req = .ok (am2, s2) := by
        unfold subjStage
        split
        · rename_i hemp
          exact absurd hemp hnemp
        · rw [hg]
          simp only [Except.map, hl2]
      have hkobj : objS.map Prod.fst = dims5 :=
        (computeObjectiveScores_keys (objPairsOf req) initScoresInt objS
          hobj).trans initScoresInt_keys
      have hks1 : subjS1.map Prod.fst = dims5 := by
        have h := subjLoop_keys subjO1 (dimsWithData g) ([], initScoresJson)
        rw [hpair] at h
        exact h
      have hks2 : s2.map Prod.fst = dims5 := by
        have h := subjLoop_keys subjO2 (dimsWithData g) ([], initScoresJson)
        rw [hl2] at h
        exact h
      have haddable : ∀ k w, assocGet s2 k = some w → (addable w).isSome := by
        intro k w hget
        obtain ⟨v1, hv1, hc⟩ := forall2_get_cases d (.num 2) f2s k w hget
        rcases hc with rfl | ⟨_, rfl⟩
        · exact computeTotals_ok_addables objS subjS1 totals1 hkobj hks1
            htot1 k _ hv1
        · rfl
      obtain ⟨totals2, htot2, hkt2⟩ :=
        computeTotals_ok_of_addable objS hkobj s2 hks2 haddable
      have hkt1 : totals1.map Prod.fst = dims5 :=
        computeTotals_keys objS subjS1 totals1 hkobj hks1 htot1
      have hkeysT : ∀ k, (assocGet totals2 k).isSome ↔
          (assocGet totals1 k).isSome := by
        intro k
        rw [assocGet_isSome_iff_mem, assocGet_isSome_iff_mem, hkt2, hkt1]
      obtain ⟨result2, hasm2⟩ := assembleReport_ok_transfer v objS totals1
        totals2 subjS1 s2 amP am2 data1 hasm1 hkeysT
      have hp2 : pipeline subjO2 reportO req = .ok (result2, am2) := by
        unfold pipeline
        rw [hobj]
        dsimp only
        rw [hsubj2]
        dsimp only
        rw [htot2]
        dsimp only
        rw [hcall]
        dsimp only
        rw [hasm2]
      have hz2 : renderHazard am2 = false := forall2_hazard d f2a hz1
      have h2eq : analyzeData subjO2 reportO req ts log =
          (⟨200, okMsg, some result2⟩,
            log ++ [⟨usernameOf req, result2, ts⟩]) := by
        simp [analyzeData, hp2, hz2]
      obtain ⟨_, hS2, _, _, hA2⟩ :=
        assembleReport_fields v objS totals2 s2 am2 result2 hasm2
      refine ⟨result2, am2, s2, ?_, ?_, hA2, hS2, hfa, hfs, ?_, ?_⟩
      · rw [h2eq]
      · rw [h2eq]
      · intro k hk
        rw [← heqa]
        exact forall2_get_ne d fallbackRecord f2a k hk
      · intro k hk
        rw [← heqs]
        exact forall2_get_ne d (.num 2) f2s k hk

/-- A scoring oracle answering every dimension with score 3 (the baseline
run of the C3 example). -/
def c3SubjO1 : List Char → Option (List Char) :=
  fun _ => some ("\x7b\"score\": 3\x7d".toList)

/-- The same oracle, except that at dimension `R` it completes with text
the extractor cannot parse: an extraction failure rather than a
transport one. -/
def c3SubjO2 : List Char → Option (List Char) :=
  fun d => if d = "R".toList then some ("no json here".toList) else c3SubjO1 d

/-- The response data of the baseline `c3SubjO1` run on `subjOnlyReq`. -/
def c3Data1 : Json :=
  .obj [("objective_scores".toList, zeroScoresJson),
    ("subjective_scores".toList, .obj [("R".toList, .num 3),
      ("E".toList, .num 0), ("A".toList, .num 0), ("D".toList, .num 0),
      ("Y".toList, .num 0)]),
    ("dimension_scores".toList, .obj [("R".toList, .num 3),
      ("E".toList, .num 0), ("A".toList, .num 0), ("D".toList, .num 0),
      ("Y".toList, .num 0)]),
    ("subjective_analysis".toList, .obj [("R".toList,
      .obj [("score".toList, .num 3)])])]

/-- C3 witness: an unparsable completion for dimension `R` alone (an
extraction failure) still returns 200, with the fallback record and
score 2 at `R` and every other dimension unchanged. -/
theorem claim3_witness :
    ∃ data2 am2 s2,
      (analyzeData c3SubjO2 emptyReport subjOnlyReq 0 []).1.code = 200 ∧
      (analyzeData c3SubjO2 emptyReport subjOnlyReq 0 []).1.data =
        some data2 ∧
      jGet data2 ("subjective_analysis".toList) = some (.obj am2) ∧
      jGet data2 ("subjective_scores".toList) = some (.obj s2) ∧
      assocGet am2 ("R".toList) = some fallbackRecord ∧
      assocGet s2 ("R".toList) = some (.num 2) ∧
      (∀ k, k ≠ "R".toList → assocGet am2 k =
        assocGet [("R".toList, .obj [("score".toList, Json.num 3)])] k) ∧
      (∀ k, k ≠ "R".toList → assocGet s2 k =
        assocGet [("R".toList, Json.num 3), ("E".toList, Json.num 0),
          ("A".toList, Json.num 0), ("D".toList, Json.num 0),
          ("Y".toList, Json.num 0)] k) :=
  claim3_fallback_isolation c3SubjO1 c3SubjO2 ("R".toList) rfl
    (fun _ h => if_neg h) emptyReport subjOnlyReq 0 [] rfl c3Data1 rfl
    [("R".toList, .obj [("score".toList, .num 3)])]
    [("R".toList, .num 3), ("E".toList, .num 0), ("A".toList, .num 0),
      ("D".toList, .num 0), ("Y".toList, .num 0)]
    rfl rfl rfl

theorem skipWs_length_le : ∀ (p : List Char), (skipWs p).length ≤ p.length
  | [] => Nat.le_refl 0
  | c :: r => by
    by_cases hw : isWsChar c
    · have := skipWs_length_le r
      simp [skipWs, hw]
      omega
    · simp [skipWs, hw]

theorem skipWs_eq_of_length : ∀ (p : List Char),
    (skipWs p).length = p.length → skipWs p = p
  | [], _ => rfl
  | c :: r, h => by
    by_cases hw : isWsChar c
    · exfalso
      have h1 : skipWs (c :: r) = skipWs r := by simp [skipWs, hw]
      rw [h1] at h
      have := skipWs_length_le r
      simp [List.length_cons] at h
      omega
    · simp [skipWs, hw]

theorem trimWs_fix_parts (p : List Char) (h : trimWs p = p) :
    skipWs p = p ∧ p.reverse.dropWhile isWsChar = p.reverse := by
  have hlen1 : (trimWs p).length ≤ (skipWs p).length := by
    unfold trimWs
    rw [List.length_reverse]
    calc ((skipWs p).reverse.dropWhile isWsChar).length
        ≤ (skipWs p).reverse.length := length_dropWhile_le_len _ _
      _ = (skipWs p).length := List.length_reverse _
  have hlen2 : (skipWs p).length ≤ p.length := skipWs_length_le p
  have hlen3 : (trimWs p).length = p.length := by rw [h]
  have hsl : (skipWs p).length = p.length :=
    Nat.le_antisymm hlen2 (hlen3 ▸ hlen1)
  have hsk : skipWs p = p := skipWs_eq_of_length p hsl
  refine ⟨hsk, ?_⟩
  have h' : ((skipWs p).reverse.dropWhile isWsChar).reverse = p := h
  rw [hsk] at h'
  have h2 := congrArg List.reverse h'
  rwa [List.reverse_reverse] at h2

theorem ticks_prefix_append (s t : List Char) :
    ("```".toList.isPrefixOf (s ++ '\n' :: t)) = ("```".toList.isPrefixOf s) := by
  have hq : (('`' : Char) == '\n') = false := rfl
  rw [show "```".toList = ['`', '`', '`'] from rfl]
  match s with
  | [] => simp [List.isPrefixOf_cons₂, hq]
  | [a] => simp [List.isPrefixOf_cons₂, hq]
  | [a, b] => simp [List.isPrefixOf_cons₂, hq]
  | a :: b :: c :: r => simp [List.isPrefixOf_cons₂, List.isPrefixOf_nil_left]

theorem prefix_ticks_of_prefix_json (l : List Char)
    (h : ("```json".toList.isPrefixOf l) = true) :
    ("```".toList.isPrefixOf l) = true := by
  simp only [ List.isPrefixOf_iff_prefix] at h ⊢
  exact List.IsPrefix.trans ⟨"json".toList, rfl⟩ h

theorem not_contains_json_of_not_ticks : ∀ (s : List Char),
    containsSub ("```".toList) s = false →
    containsSub ("```json".toList) s = false
  | [], _ => rfl
  | c :: r, h => by
    have h' : ("```".toList.isPrefixOf (c :: r) ||
      containsSub ("```".toList) r) = false := h
    simp only [Bool.or_eq_false_iff] at h'
    show ("```json".toList.isPrefixOf (c :: r) ||
      containsSub ("```json".toList) r) = false
    simp only [Bool.or_eq_false_iff]
    refine ⟨?_, not_contains_json_of_not_ticks r h'.2⟩
    rcases hpre : ("```json".toList.isPrefixOf (c :: r)) with _ | _
    · rfl
    · exact absurd (prefix_ticks_of_prefix_json (c :: r) hpre)
        (by rw [h'.1]; exact Bool.false_ne_true)

theorem findSub_none : ∀ (pat s : List Char),
    containsSub pat s = false → findSub pat s = none
  | pat, [], h => by
    have h' : pat.isEmpty = false := h
    show (if pat.isEmpty then some 0 else none) = none
    simp [h']
  | pat, c :: r, h => by
    have h' : (pat.isPrefixOf (c :: r) || containsSub pat r) = false := h
    simp only [Bool.or_eq_false_iff] at h'
    show (if pat.isPrefixOf (c :: r) then some 0
      else (findSub pat r).map (· + 1)) = none
    simp [h'.1, findSub_none pat r h'.2]

theorem findSub_ticks_append : ∀ (s : List Char),
    containsSub ("```".toList) s = false →
    findSub ("```".toList) (s ++ '\n' :: "```".toList) =
      some (s.length + 1)
  | [], _ => rfl
  | c :: r, h => by
    have h' : ("```".toList.isPrefixOf (c :: r) ||
      containsSub ("```".toList) r) = false := h
    simp only [Bool.or_eq_false_iff] at h'
    have hpre : ("```".toList.isPrefixOf
        (c :: (r ++ '\n' :: "```".toList))) = false :=
      (ticks_prefix_append (c :: r) ("```".toList)).trans h'.1
    have hneg : ¬ ("```".toList.isPrefixOf
        (c :: (r ++ '\n' :: "```".toList)) = true) := by
      rw [hpre]
      exact Bool.false_ne_true
    show (if "```".toList.isPrefixOf (c :: (r ++ '\n' :: "```".toList))
        then some 0
        else (findSub ("```".toList) (r ++ '\n' :: "```".toList)).map (· + 1))
      = some ((c :: r).length + 1)
    rw [if_neg hneg, findSub_ticks_append r h'.2]
    rfl

theorem take_len_succ_append (l : List Char) (c : Char) (t : List Char) :
    (l ++ c :: t).take (l.length + 1) = l ++ [c] := by
  induction l with
  | nil => rfl
  | cons a r ih =>
    simp only [List.cons_append, List.length_cons, List.take_succ_cons]
    rw [ih]

theorem trimWs_wrap (p : List Char) (htrim : trimWs p = p) :
    trimWs (('\n' :: p) ++ ['\n']) = p := by
  obtain ⟨hlead, htrail⟩ := trimWs_fix_parts p htrim
  cases p with
  | nil => rfl
  | cons a p' =>
    have hwa : isWsChar a = false := by
      rcases hw : isWsChar a with _ | _
      · rfl
      · exfalso
        have hlead' : skipWs (a :: p') = a :: p' := hlead
        simp [skipWs, hw] at hlead'
        have hlen := congrArg List.length hlead'
        have hle := skipWs_length_le p'
        simp only [List.length_cons] at hlen
        omega
    have hs : skipWs (('\n' :: (a :: p')) ++ ['\n']) = (a :: p') ++ ['\n'] := by
      show skipWs ('\n' :: ((a :: p') ++ ['\n'])) = (a :: p') ++ ['\n']
      simp [skipWs, hwa, show isWsChar '\x0a' = true from rfl]
    unfold trimWs
    rw [show ('\n' :: (a :: p')) ++ ['\n'] = ('\n' :: ((a :: p') ++ ['\n']))
      from rfl] at hs ⊢
    rw [hs, List.reverse_append]
    rw [show (['\n'].reverse ++ ((a :: p').reverse)).dropWhile isWsChar =
      ((a :: p').reverse).dropWhile isWsChar from by
        simp [List.dropWhile, show isWsChar '\x0a' = true from rfl]]
    rw [htrail, List.reverse_reverse]

/-- C8 amended: for every payload containing no fence delimiter
```` ``` ```` and carrying no surrounding whitespace, feeding the
extractor the payload wrapped in a ```` ```json ```` fenced block and
feeding it the payload unfenced yield identical results (for any payload
at all, well-formed or not); the original claim fails only when the
payload itself contains the closing delimiter, which truncates the lazy
capture (see the counterexample). -/
theorem claim8_amended_fence_transparency (p : List Char)
    (hfence : containsSub ("```".toList) p = false)
    (htrim : trimWs p = p) :
    extractJson (fenceWrap p) = extractJson p := by
  have hnojson : containsSub ("```json".toList) p = false :=
    not_contains_json_of_not_ticks p hfence
  have hfsp : fenceSearch p = none := by
    unfold fenceSearch
    rw [findSub_none ("```json".toList) p hnojson]
  have hticks : containsSub ("```".toList) ('\n' :: p) = false := hfence
  have h2 := findSub_ticks_append ('\n' :: p) hticks
  have hfsw : fenceSearch (fenceWrap p) = some p := by
    unfold fenceSearch
    rw [show findSub ("```json".toList) (fenceWrap p) = some 0 from rfl]
    dsimp only
    rw [show (fenceWrap p).drop (0 + 7) =
      ('\n' :: p) ++ '\n' :: "```".toList from rfl]
    rw [h2]
    dsimp only
    rw [take_len_succ_append ('\n' :: p) '\n' ("```".toList)]
    rw [trimWs_wrap p htrim]
  unfold extractJson
  rw [hfsw, hfsp]
  rfl

/-- A fence-free payload for the C8 witness run. -/
def c8Payload : List Char := "\x7b\"ok\": 1\x7d".toList

/-- C8 witness: a concrete fence-free payload extracting identically
fenced and unfenced. -/
theorem claim8_witness :
    containsSub ("```".toList) c8Payload = false ∧
    trimWs c8Payload = c8Payload ∧
    extractJson (fenceWrap c8Payload) = extractJson c8Payload :=
  ⟨rfl, rfl, claim8_amended_fence_transparency c8Payload rfl rfl⟩

/-- The score a pair's resolved choice contributes under Python `+=` (an
unresolved pair contributes 0; a counted non-addable score aborts the
request instead, so it never reaches a returned score). -/
def choiceScore (qa : QAPair) : Int :=
  match qa.user_choice with
  | some ch => (addable ch.score).getD 0
  | none => 0

/-- The claim's words, as the comparison target for the loop at lines
191–195: the sum, over the QA pairs of dimension `d`, of the resolved
choice's score. -/
def sumScores (d : List Char) : List QAPair → Int
  | [] => 0
  | qa :: rest =>
    (if qa.dimension = Json.str d then choiceScore qa else 0) + sumScores d rest

theorem find_first_choice (ans : Json) :
    ∀ (pre : List FOption) (o : FOption) (rest : List FOption),
      (∀ o2 ∈ pre, jsonEqPy o2.key ans = false) → jsonEqPy o.key ans = true →
      findChoice (pre ++ o :: rest) ans =
        some { key := ans, content := o.content, score := o.score }
  | [], o, rest, _, ho => by
    simp only [List.nil_append, findChoice]
    rw [show List.find? (fun o2 => jsonEqPy o2.key ans) (o :: rest) = some o
      from by simp [List.find?_cons, ho]]
    rfl
  | p :: pre, o, rest, hpre, ho => by
    have hp : jsonEqPy p.key ans = false := hpre p (List.mem_cons_self p pre)
    have ih := find_first_choice ans pre o rest
      (fun o2 h2 => hpre o2 (List.mem_cons_of_mem p h2)) ho
    simp only [List.cons_append, findChoice] at ih ⊢
    rw [show List.find? (fun o2 => jsonEqPy o2.key ans)
        (p :: (pre ++ o :: rest)) =
        List.find? (fun o2 => jsonEqPy o2.key ans) (pre ++ o :: rest)
      from by simp [List.find?_cons, hp]]
    exact ih

theorem computeObjectiveScores_sum :
    ∀ (pairs : List QAPair) (scores s : List (List Char × Int)),
      computeObjectiveScores pairs scores = .ok s →
      ∀ (d : List Char) (v : Int), assocGet scores d = some v →
        assocGet s d = some (v + sumScores d pairs)
  | [], scores, s, h => by
    intro d v hv
    simp only [computeObjectiveScores] at h
    injection h with h2
    subst h2
    simpa [sumScores] using hv
  | qa :: rest, scores, s, h => by
    intro d v hv
    simp only [computeObjectiveScores] at h
    rcases hdim : qa.dimension with _ | b | n | d0 | l | kvs <;>
      rw [hdim] at h <;> dsimp only at h
    · rw [show sumScores d (qa :: rest) = sumScores d rest from by
        simp [sumScores, hdim]]
      exact computeObjectiveScores_sum rest scores s h d v hv
    · rw [show sumScores d (qa :: rest) = sumScores d rest from by
        simp [sumScores, hdim]]
      exact computeObjectiveScores_sum rest scores s h d v hv
    · rw [show sumScores d (qa :: rest) = sumScores d rest from by
        simp [sumScores, hdim]]
      exact computeObjectiveScores_sum rest scores s h d v hv
    · rcases hg : assocGet scores d0 with _ | cur <;> rw [hg] at h <;>
        dsimp only at h
      · have hne : d0 ≠ d := fun he => by rw [he, hv] at hg; cases hg
        rw [show sumScores d (qa :: rest) = sumScores d rest from by
          simp [sumScores, hdim, hne]]
        exact computeObjectiveScores_sum rest scores s h d v hv
      · rcases huc : qa.user_choice with _ | ch <;> rw [huc] at h <;>
          dsimp only at h
        · rw [show sumScores d (qa :: rest) = sumScores d rest from by
            simp [sumScores, hdim, choiceScore, huc]]
          exact computeObjectiveScores_sum rest scores s h d v hv
        · rcases had : addable ch.score with _ | n <;> rw [had] at h <;>
            dsimp only at h
          · cases h
          · by_cases hdd : d0 = d
            · have hcv : cur = v := by
                rw [hdd] at hg
                exact Option.some_inj.mp (hg.symm.trans hv)
              have hnew : assocGet (assocSet scores d0 (cur + n)) d =
                  some (cur + n) := by
                rw [hdd]
                exact assocGet_assocSet_isSome scores d (cur + n)
                  (Option.isSome_iff_exists.mpr ⟨v, hv⟩)
              have ih := computeObjectiveScores_sum rest _ s h d (cur + n) hnew
              rw [show sumScores d (qa :: rest) = n + sumScores d rest from by
                simp [sumScores, hdim, hdd, choiceScore, huc, had]]
              rw [hcv] at ih
              rw [← Int.add_assoc]
              exact ih
            · have hget : assocGet (assocSet scores d0 (cur + n)) d = some v := by
                rw [assocGet_assocSet_ne scores d0 d (cur + n) (Ne.symm hdd)]
                exact hv
              have ih := computeObjectiveScores_sum rest _ s h d v hget
              rw [show sumScores d (qa :: rest) = sumScores d rest from by
                simp [sumScores, hdim, hdd]]
              exact ih
    · cases h
    · cases h

/-- C6: for every objective QA pair of every request, the recorded
`user_choice` is the resolved choice — the first option whose key
Python-`==`-equals the submitted answer, recorded as
`{key := answer, content, score}`, and `none` when no option matches;
whenever objective scoring succeeds, each dimension's objective score is
the sum, over that dimension's objective QA pairs, of the resolved
choice's score, an unresolved pair contributing 0; and on the spec's
example the pair resolves to `{key:"2", content:"c2", score:4}` with
`objective_scores["R"] = 4`. -/
theorem claim6_objective_scoring :
    (∀ (ans : Json) (pre : List FOption) (o : FOption) (rest : List FOption),
      (∀ o2 ∈ pre, jsonEqPy o2.key ans = false) → jsonEqPy o.key ans = true →
      findChoice (pre ++ o :: rest) ans =
        some { key := ans, content := o.content, score := o.score }) ∧
    (∀ (opts : List FOption) (ans : Json),
      (∀ o ∈ opts, jsonEqPy o.key ans = false) → findChoice opts ans = none) ∧
    (∀ (req : Request) (qa : QAPair), qa ∈ objPairsOf req →
      qa.user_choice = findChoice qa.options qa.answer) ∧
    (∀ (req : Request) (s : List (List Char × Int)),
      computeObjectiveScores (objPairsOf req) initScoresInt = .ok s →
      ∀ d ∈ dims5, assocGet s d = some (sumScores d (objPairsOf req))) ∧
    ((objPairsOf c6Req).map (fun qa => qa.user_choice)) =
      [some ⟨.str ("2".toList), .str ("c2".toList), .num 4⟩] ∧
    computeObjectiveScores (objPairsOf c6Req) initScoresInt =
      .ok [("R".toList, 4), ("E".toList, 0), ("A".toList, 0),
        ("D".toList, 0), ("Y".toList, 0)] := by
  refine ⟨?_, ?_, ?_, ?_, rfl, rfl⟩
  · intro ans pre o rest hpre ho
    exact find_first_choice ans pre o rest hpre ho
  · intro opts ans h
    have hf : opts.find? (fun o => jsonEqPy o.key ans) = none :=
      List.find?_eq_none.mpr (fun o ho => by simp [h o ho])
    simp [findChoice, hf]
  · intro req qa hmem
    simp only [objPairsOf, addUserChoices] at hmem
    obtain ⟨qa0, _, rfl⟩ := List.mem_map.mp hmem
    rfl
  · intro req s h d hd
    have h0 : assocGet initScoresInt d = some 0 := by
      simp only [dims5, List.mem_cons, List.not_mem_nil, or_false] at hd
      rcases hd with rfl | rfl | rfl | rfl | rfl <;> rfl
    have hs := computeObjectiveScores_sum (objPairsOf req) initScoresInt s h d 0 h0
    simpa using hs

/-- C6 witness: the recording rule at the spec's two-option example (the
second option matches), the no-match case, and the sum characterization
of the example's computed `objective_scores["R"]`. -/
theorem claim6_witness :
    findChoice [⟨.str ("1".toList), .str ("c1".toList), .num 2⟩,
        ⟨.str ("2".toList), .str ("c2".toList), .num 4⟩] (.str ("2".toList)) =
      some ⟨.str ("2".toList), .str ("c2".toList), .num 4⟩ ∧
    findChoice [⟨.str ("1".toList), .str ("c1".toList), .num 2⟩]
      (.str ("9".toList)) = none ∧
    assocGet [("R".toList, (4 : Int)), ("E".toList, 0), ("A".toList, 0),
      ("D".toList, 0), ("Y".toList, 0)] ("R".toList) =
      some (sumScores ("R".toList) (objPairsOf c6Req)) :=
  ⟨claim6_objective_scoring.1 (.str ("2".toList))
      [⟨.str ("1".toList), .str ("c1".toList), .num 2⟩]
      ⟨.str ("2".toList), .str ("c2".toList), .num 4⟩ []
      (by decide) (by decide),
   claim6_objective_scoring.2.1 _ _ (by decide),
   claim6_objective_scoring.2.2.2.1 c6Req _ rfl ("R".toList) (by decide)⟩
